import Mathlib

/-!
Shallow embedding of the `github-oauth-autologin` repository, together with
proofs about its specified behaviour.

The embedding follows the Python sources:
- `src/utils/security.py` (`mask_sensitive`),
- `src/core/constants.py` (`GitHubUrls`),
- `src/core/cookie_manager.py` (`extract_session`, the notification messages
  built by the cookie-save targets),
- `src/core/oauth_handler.py` (`wait_callback` and its success-pattern loop),
- `src/core/github_auth.py` (`handle_device_verification`, `_handle_2fa_mobile`),
- `src/core/state_manager.py` (`record_login_attempt`, `is_healthy`,
  `get_site_state`, `save`/`_load`).

Polling code that reads `page.url` once per one-second tick is modelled by a
URL trace `u : Nat → String`, where `u t` is the URL the browser reports `t`
seconds after the loop started; each loop returns, besides its boolean result,
the tick at which it returned.  Python strings are modelled as `String`,
Python's `in` as a substring test on character lists, dictionaries as
association lists in insertion order (Python 3.7+ semantics, the order
`json.dumps` serialises), and raised exceptions as `Option.none`.
-/

/-! ### Python's substring operator -/

/-- Python's `needle in hay` (substring containment), on character lists.
Scans every suffix of `hay` for `needle` as a prefix. -/
def hasInfixCL (needle : List Char) : List Char → Bool
  | [] => needle.isEmpty
  | c :: cs => needle.isPrefixOf (c :: cs) || hasInfixCL needle cs

/-- Python's `needle in hay` on strings. -/
def inStr (needle hay : String) : Bool :=
  hasInfixCL needle.toList hay.toList

/-! ### `src/utils/security.py` -/

/-- Python's slice `s[-n:]`: the whole list when `n = 0` (because `s[-0:]` is
`s[0:]`), otherwise the last `n` characters. -/
def pyLastSlice (s : List Char) (n : Nat) : List Char :=
  if n = 0 then s else s.drop (s.length - n)

/-- `mask_sensitive` from `src/utils/security.py` (lines 4-25): empty input is
returned unchanged; a value of length at most `2 * show_chars` is replaced by
that many `*`; otherwise the result is Python's
`value[:show_chars] + '*' * (len - 2*show_chars) + value[-show_chars:]`. -/
def mask_sensitive (value : String) (show_chars : Nat) : String :=
  if value = "" then ""
  else if value.toList.length ≤ show_chars * 2 then
    String.mk (List.replicate value.toList.length '*')
  else
    String.mk (value.toList.take show_chars
      ++ List.replicate (value.toList.length - show_chars * 2) '*'
      ++ pyLastSlice value.toList show_chars)

/-! ### `src/core/constants.py`, class `GitHubUrls` -/

namespace GitHubUrls

def LOGIN : String := "https://github.com/login"

def SESSION : String := "github.com/session"

def OAUTH_AUTHORIZE : String := "github.com/login/oauth/authorize"

def TWO_FACTOR : String := "github.com/sessions/two-factor"

def TWO_FACTOR_MOBILE : String := "two-factor/mobile"

def DEVICE_VERIFICATION : String := "verified-device"

def DEVICE_VERIFICATION_ALT : String := "device-verification"

end GitHubUrls

/-! ### `src/core/cookie_manager.py` -/

/-- One entry of the Playwright cookie jar, as `CookieManager.extract_session`
reads it: `cookie['name']`, `cookie['value']`, `cookie.get('domain', '')`. -/
structure BrowserCookie where
  name : String
  value : String
  domain : String
deriving DecidableEq

/-- Python's `domain.lstrip('.')`: every leading dot removed. -/
def lstripDots (s : String) : String :=
  String.mk (s.toList.dropWhile (fun c => c == '.'))

/-- `CookieManager.extract_session` (`src/core/cookie_manager.py`, lines
24-48): the first jar entry whose name equals `name` and whose recorded domain
contains `domain.lstrip('.')` as a substring yields its value; otherwise the
scan returns `None`. -/
def extract_session (cookies : List BrowserCookie) (domain : String) (name : String) :
    Option String :=
  match cookies with
  | [] => none
  | ck :: rest =>
    if ck.name == name && inStr (lstripDots domain) ck.domain then some ck.value
    else extract_session rest domain name

/-- The notification text `CookieManager._save_to_env` sends
(`src/core/cookie_manager.py`, lines 148-154).  The raw cookie value is
interpolated into the `<code>` slot. -/
def save_to_env_message (value : String) (env_name : String) : String :=
  "🔑 <b>新 Cookie</b>\n\n请设置环境变量 <b>" ++ env_name ++ "</b>:\n<code>"
    ++ value ++ "</code>"

/-- The notification text `CookieManager._save_to_github_secret` sends when
`REPO_TOKEN`/`GITHUB_REPOSITORY` are missing (`src/core/cookie_manager.py`,
lines 77-80).  The cookie value is interpolated as `mask_sensitive(value, 6)`. -/
def secret_manual_update_message (value : String) (secret_name : String) : String :=
  "🔑 <b>新 Cookie</b>\n\n请手动更新 Secret <b>" ++ secret_name ++ "</b>:\n<code>"
    ++ mask_sensitive value 6 ++ "</code>"

/-- The notification text `CookieManager._save_to_file` sends on success
(`src/core/cookie_manager.py`, line 142).  It mentions only the path. -/
def save_to_file_message (path : String) : String :=
  "💾 Cookie 已保存到 " ++ path

/-! ### `src/core/oauth_handler.py` -/

/-- The success-pattern scan inside one tick of
`OAuthFlowController.wait_callback` (`src/core/oauth_handler.py`, lines
61-70).  A pattern starting with `"!"` hits `continue` when its suffix is
absent from the URL, and otherwise simply falls off the end of the `if`, so
the loop advances either way; a plain pattern declares success when it is a
substring of the URL. -/
def patterns_match : List String → String → Bool
  | [], _ => false
  | pattern :: rest, url =>
    if pattern.toList.take 1 == ['!'] then
      if inStr (String.mk (pattern.toList.drop 1)) url = false then
        patterns_match rest url
      else
        patterns_match rest url
    else if inStr pattern url then true
    else patterns_match rest url

/-- The tick loop of `wait_callback`: at tick `i` the URL `u i` is read and
scanned; on a match the call returns success at that tick, otherwise it sleeps
and advances.  After `timeout` ticks without a match it returns failure. -/
def wait_callback_loop (u : Nat → String) (ps : List String) : Nat → Nat → Bool × Nat
  | i, 0 => (false, i)
  | i, rem + 1 =>
    if patterns_match ps (u i) then (true, i)
    else wait_callback_loop u ps (i + 1) rem

/-- `OAuthFlowController.wait_callback` (`src/core/oauth_handler.py`, lines
53-81) over a URL trace. -/
def wait_callback (u : Nat → String) (success_patterns : List String) (timeout : Nat) :
    Bool × Nat :=
  wait_callback_loop u success_patterns 0 timeout

/-! ### `src/core/github_auth.py` -/

/-- The device-verification URL test used by `handle_device_verification`:
either marker substring is present. -/
def on_device_verification_url (url : String) : Bool :=
  inStr GitHubUrls.DEVICE_VERIFICATION url || inStr GitHubUrls.DEVICE_VERIFICATION_ALT url

/-- The poll loop of `GitHubAuthenticator.handle_device_verification`
(`src/core/github_auth.py`, lines 171-185): iteration `i` sleeps one second
(so the wall clock reads `i + 1`), and only when `i % 5 == 0 and i > 0` reads
the URL; if the marker is gone it returns success at that tick, otherwise it
issues a best-effort reload and continues.  The third component records the
iteration indices at which the URL was re-checked. -/
def device_verification_loop (u : Nat → String) (wait : Nat) :
    Nat → Nat → Bool × Nat × List Nat
  | _, 0 =>
    if on_device_verification_url (u wait) then (false, wait, [])
    else (true, wait, [])
  | i, rem + 1 =>
    if i % 5 == 0 && decide (0 < i) then
      if on_device_verification_url (u (i + 1)) = false then (true, i + 1, [i])
      else
        ((device_verification_loop u wait (i + 1) rem).1,
         (device_verification_loop u wait (i + 1) rem).2.1,
         i :: (device_verification_loop u wait (i + 1) rem).2.2)
    else device_verification_loop u wait (i + 1) rem

/-- `GitHubAuthenticator.handle_device_verification`
(`src/core/github_auth.py`, lines 146-194) over a URL trace: the loop above,
followed by one final URL check (at wall clock `wait`) before declaring
timeout failure. -/
def handle_device_verification (u : Nat → String) (wait : Nat) : Bool × Nat × List Nat :=
  device_verification_loop u wait 0 wait

/-- The poll loop of `GitHubAuthenticator._handle_2fa_mobile`
(`src/core/github_auth.py`, lines 235-253): iteration `i` sleeps one second
and reads the URL at wall clock `i + 1`; if the two-factor marker is gone it
returns success; otherwise, if the root login URL is a substring, it returns
failure; otherwise it continues.  After the budget it returns failure. -/
def handle_2fa_mobile_loop (u : Nat → String) (timeout : Nat) : Nat → Nat → Bool × Nat
  | _, 0 => (false, timeout)
  | i, rem + 1 =>
    if inStr GitHubUrls.TWO_FACTOR (u (i + 1)) = false then (true, i + 1)
    else if inStr GitHubUrls.LOGIN (u (i + 1)) then (false, i + 1)
    else handle_2fa_mobile_loop u timeout (i + 1) rem

/-- `GitHubAuthenticator._handle_2fa_mobile` over a URL trace. -/
def handle_2fa_mobile (u : Nat → String) (timeout : Nat) : Bool × Nat :=
  handle_2fa_mobile_loop u timeout 0 timeout

/-! ### `src/core/state_manager.py`

`StateManager.state` is whatever `json.loads` produced: a dynamically typed
JSON value.  `JVal` models the values `json` handles, except that numbers are
modelled as integers only (the state files this program writes contain no
floats).  Python dictionaries keep insertion order, which is the order
`json.dumps` writes and `json.loads` reads, so objects are association lists
in that order.  An operation that would raise (`KeyError`, `TypeError`,
`AttributeError`) returns `none`. -/

inductive JVal where
  | jnull
  | jbool (b : Bool)
  | jint (n : Int)
  | jstr (s : String)
  | jarr (items : List JVal)
  | jobj (fields : List (String × JVal))

abbrev JFields := List (String × JVal)

/-- Python `d[k]` / `d.get(k)` on an ordered dictionary. -/
def getKey (fields : JFields) (k : String) : Option JVal :=
  match fields with
  | [] => none
  | (k2, v) :: rest => if k2 == k then some v else getKey rest k

/-- Python `d[k] = v` on an ordered dictionary: replace in place when the key
exists, append otherwise. -/
def setKey (fields : JFields) (k : String) (v : JVal) : JFields :=
  match fields with
  | [] => [(k, v)]
  | (k2, v2) :: rest => if k2 == k then (k2, v) :: rest else (k2, v2) :: setKey rest k v

/-- A Python value usable in integer arithmetic and comparisons: `int`, or
`bool` (a subtype of `int` in Python).  Anything else raises `TypeError`. -/
def asPyInt : JVal → Option Int
  | .jint n => some n
  | .jbool b => some (if b then 1 else 0)
  | _ => none

/-- Python truthiness of a JSON value (`if not site_state: ...`). -/
def pyTruthy : JVal → Bool
  | .jnull => false
  | .jbool b => b
  | .jint n => !(n == 0)
  | .jstr s => !(s == "")
  | .jarr items => !items.isEmpty
  | .jobj fields => !fields.isEmpty

/-- The fresh per-site record `record_login_attempt` creates when the site has
no entry yet (`src/core/state_manager.py`, lines 60-66). -/
def newSiteRecord : JFields :=
  [("total_attempts", .jint 0), ("total_successes", .jint 0),
   ("total_failures", .jint 0), ("consecutive_failures", .jint 0)]

/-- Python `r[k] += 1`: `KeyError` when the key is absent, `TypeError` when
the value is not an integer. -/
def bumpCounter (r : JFields) (k : String) : Option JFields := do
  let v ← getKey r k
  let n ← asPyInt v
  pure (setKey r k (.jint (n + 1)))

/-- The per-record mutation block of `record_login_attempt`
(`src/core/state_manager.py`, lines 68-84), applied to the site record
`site_state`. -/
def site_record_update (r0 : JFields) (success : Bool) (error_message : String)
    (two_factor_used : Bool) (device_verification_used : Bool) (now : String) :
    Option JFields := do
  let r1 ← bumpCounter r0 "total_attempts"
  let r2 := setKey r1 "last_attempt_time" (.jstr now)
  let r3 := setKey r2 "last_attempt_success" (.jbool success)
  if success then do
    let r4 ← bumpCounter r3 "total_successes"
    let r5 := setKey r4 "consecutive_failures" (.jint 0)
    let r6 := setKey r5 "last_success_time" (.jstr now)
    let r7 := setKey r6 "two_factor_used" (.jbool two_factor_used)
    pure (setKey r7 "device_verification_used" (.jbool device_verification_used))
  else do
    let r4 ← bumpCounter r3 "total_failures"
    let cf ← asPyInt ((getKey r4 "consecutive_failures").getD (.jint 0))
    let r5 := setKey r4 "consecutive_failures" (.jint (cf + 1))
    pure (setKey r5 "last_error" (.jstr error_message))

/-- `StateManager.record_login_attempt` (`src/core/state_manager.py`, lines
43-86) without the trailing `save()`; `now` stands for
`datetime.now().isoformat()`.  Returns the updated state, or `none` where the
Python raises (non-dict state, non-dict site entry, or a record whose
counters cannot be incremented). -/
def record_login_attempt (st : JVal) (site : String) (success : Bool)
    (error_message : String) (two_factor_used : Bool)
    (device_verification_used : Bool) (now : String) : Option JVal :=
  match st with
  | .jobj fields0 =>
    let fields :=
      match getKey fields0 site with
      | none => setKey fields0 site (.jobj newSiteRecord)
      | some _ => fields0
    match getKey fields site with
    | some (.jobj r0) =>
      (site_record_update r0 success error_message two_factor_used
          device_verification_used now).map
        (fun r9 => .jobj (setKey fields site (.jobj r9)))
    | some _ => none
    | none => none
  | _ => none

/-- `StateManager.get_site_state`: `self.state.get(site)`.  The outer `none`
is Python raising on a non-dict state; the inner option is the record's
presence. -/
def get_site_state (st : JVal) (site : String) : Option (Option JVal) :=
  match st with
  | .jobj fields => some (getKey fields site)
  | _ => none

/-- `StateManager.is_healthy` (`src/core/state_manager.py`, lines 99-114):
an absent or falsy site record is healthy; otherwise
`consecutive_failures` (default `0`) must be below the threshold. -/
def is_healthy (st : JVal) (site : String) (max_consecutive_failures : Int) :
    Option Bool := do
  let site_state ← get_site_state st site
  match site_state with
  | none => pure true
  | some ss =>
    if pyTruthy ss = false then pure true
    else
      match ss with
      | .jobj r => do
        let cf ← asPyInt ((getKey r "consecutive_failures").getD (.jint 0))
        pure (decide (cf < max_consecutive_failures))
      | _ => none

/-! ### The serialiser, a model of `json.dumps(state, ensure_ascii=False)`

`StateManager.save` writes `json.dumps(self.state, indent=2,
ensure_ascii=False)`; the model emits the same document without the
cosmetic indentation (the reader below skips any JSON whitespace, so every
indented variant parses to the same value). -/

/-- Decimal digit characters of `n`, most significant first. -/
def natChars (n : Nat) : List Char :=
  if n = 0 then ['0']
  else ((Nat.digits 10 n).map (fun d => Char.ofNat (48 + d))).reverse

/-- A JSON integer literal: optional minus sign, then decimal digits. -/
def intChars (i : Int) : List Char :=
  if i < 0 then '-' :: natChars i.natAbs else natChars i.natAbs

/-- The lowercase hexadecimal digit for `d < 16`. -/
def hexDigit (d : Nat) : Char :=
  if d < 10 then Char.ofNat (48 + d) else Char.ofNat (87 + d)

/-- JSON escaping of one character, as `json.dumps(..., ensure_ascii=False)`
performs it: only the quote, the backslash and control characters are
escaped. -/
def escChar (c : Char) : List Char :=
  if c = '"' then ['\\', '"']
  else if c = '\\' then ['\\', '\\']
  else if c = '\n' then ['\\', 'n']
  else if c = '\t' then ['\\', 't']
  else if c = '\r' then ['\\', 'r']
  else if c = Char.ofNat 8 then ['\\', 'b']
  else if c = Char.ofNat 12 then ['\\', 'f']
  else if c.toNat < 32 then
    ['\\', 'u', '0', '0', hexDigit (c.toNat / 16), hexDigit (c.toNat % 16)]
  else [c]

/-- A JSON string literal: quote, escaped body, quote. -/
def strChars (s : String) : List Char :=
  '"' :: (s.toList.flatMap escChar ++ ['"'])

mutual

/-- Serialise one JSON value to characters. -/
def emitVal : JVal → List Char
  | .jnull => ['n', 'u', 'l', 'l']
  | .jbool true => ['t', 'r', 'u', 'e']
  | .jbool false => ['f', 'a', 'l', 's', 'e']
  | .jint i => intChars i
  | .jstr s => strChars s
  | .jarr items => '[' :: (emitItems items ++ [']'])
  | .jobj fields => '{' :: (emitFields fields ++ ['}'])

/-- Serialise array elements, `", "`-separated. -/
def emitItems : List JVal → List Char
  | [] => []
  | v :: rest => emitVal v ++ emitItemsTail rest

/-- The `", "`-prefixed continuation of an element list. -/
def emitItemsTail : List JVal → List Char
  | [] => []
  | v :: rest => ',' :: ' ' :: (emitVal v ++ emitItemsTail rest)

/-- Serialise object members, `", "`-separated, each as `"key": value`. -/
def emitFields : JFields → List Char
  | [] => []
  | (k, v) :: rest => strChars k ++ ':' :: ' ' :: (emitVal v ++ emitFieldsTail rest)

/-- The `", "`-prefixed continuation of a member list. -/
def emitFieldsTail : JFields → List Char
  | [] => []
  | (k, v) :: rest => ',' :: ' ' :: (strChars k ++ ':' :: ' ' :: (emitVal v ++ emitFieldsTail rest))

end

/-- `json.dumps` for the model: the serialised state file content. -/
def dumps (st : JVal) : String :=
  String.mk (emitVal st)

/-! ### The reader, a model of `json.loads` -/

/-- Skip JSON whitespace (space, newline, tab, carriage return). -/
def skipBlanks : List Char → List Char
  | [] => []
  | c :: cs => if c == ' ' || c == '\n' || c == '\t' || c == '\r' then skipBlanks cs else c :: cs

/-- An ASCII decimal digit. -/
def isDigitCh (c : Char) : Bool := 48 ≤ c.toNat && c.toNat ≤ 57

/-- Split a leading run of decimal digits off the input. -/
def splitDigits : List Char → List Char × List Char
  | [] => ([], [])
  | c :: cs =>
    if isDigitCh c then
      let p := splitDigits cs
      (c :: p.1, p.2)
    else ([], c :: cs)

/-- The numeric value of a digit run, most significant first. -/
def digitsVal (ds : List Char) : Nat :=
  ds.foldl (fun a c => a * 10 + (c.toNat - 48)) 0

/-- Read a nonempty digit run as a natural number. -/
def readNat (cs : List Char) : Option (Nat × List Char) :=
  match splitDigits cs with
  | ([], _) => none
  | (ds, rest) => some (digitsVal ds, rest)

/-- The value of an ASCII hexadecimal digit. -/
def hexNibble (c : Char) : Option Nat :=
  if 48 ≤ c.toNat && c.toNat ≤ 57 then some (c.toNat - 48)
  else if 97 ≤ c.toNat && c.toNat ≤ 102 then some (c.toNat - 87)
  else if 65 ≤ c.toNat && c.toNat ≤ 70 then some (c.toNat - 55)
  else none

/-- Resolve a single-character JSON escape. -/
def unescCh (c : Char) : Option Char :=
  if c = '"' then some '"'
  else if c = '\\' then some '\\'
  else if c = '/' then some '/'
  else if c = 'n' then some '\n'
  else if c = 't' then some '\t'
  else if c = 'r' then some '\r'
  else if c = 'b' then some (Char.ofNat 8)
  else if c = 'f' then some (Char.ofNat 12)
  else none

/-- Read a string body after the opening quote, resolving escapes, up to the
closing quote. -/
def readStrBody (acc : List Char) : List Char → Option (String × List Char)
  | [] => none
  | c :: rest =>
    if c = '"' then some (String.mk acc.reverse, rest)
    else if c = '\\' then
      match rest with
      | 'u' :: a :: b :: c2 :: d :: rest2 =>
        match hexNibble a, hexNibble b, hexNibble c2, hexNibble d with
        | some va, some vb, some vc, some vd =>
          readStrBody (Char.ofNat (((va * 16 + vb) * 16 + vc) * 16 + vd) :: acc) rest2
        | _, _, _, _ => none
      | e :: rest2 =>
        match unescCh e with
        | some ch => readStrBody (ch :: acc) rest2
        | none => none
      | [] => none
    else readStrBody (c :: acc) rest

mutual

/-- Read one JSON value.  `fuel` only bounds recursion depth; `loads` passes
enough for any input of its length. -/
def readVal : Nat → List Char → Option (JVal × List Char)
  | 0, _ => none
  | fuel + 1, cs =>
    match skipBlanks cs with
    | 'n' :: 'u' :: 'l' :: 'l' :: rest => some (.jnull, rest)
    | 't' :: 'r' :: 'u' :: 'e' :: rest => some (.jbool true, rest)
    | 'f' :: 'a' :: 'l' :: 's' :: 'e' :: rest => some (.jbool false, rest)
    | '"' :: rest =>
      match readStrBody [] rest with
      | some (s, rest2) => some (.jstr s, rest2)
      | none => none
    | '[' :: rest =>
      match skipBlanks rest with
      | [] => none
      | c :: rest2 =>
        if c = ']' then some (.jarr [], rest2)
        else
          match readItems fuel (c :: rest2) with
          | some (items, rest3) => some (.jarr items, rest3)
          | none => none
    | '{' :: rest =>
      match skipBlanks rest with
      | [] => none
      | c :: rest2 =>
        if c = '}' then some (.jobj [], rest2)
        else
          match readFields fuel (c :: rest2) with
          | some (fields, rest3) => some (.jobj fields, rest3)
          | none => none
    | '-' :: rest =>
      match readNat rest with
      | some (n, rest2) => some (.jint (-(n : Int)), rest2)
      | none => none
    | c :: rest =>
      if isDigitCh c then
        match readNat (c :: rest) with
        | some (n, rest2) => some (.jint (n : Int), rest2)
        | none => none
      else none
    | [] => none

/-- Read one-or-more comma-separated array elements up to `]` (the empty
array is handled in `readVal`). -/
def readItems : Nat → List Char → Option (List JVal × List Char)
  | 0, _ => none
  | fuel + 1, cs =>
    match readVal fuel cs with
    | none => none
    | some (v, rest) =>
      match skipBlanks rest with
      | ',' :: rest2 =>
        match readItems fuel rest2 with
        | some (vs, rest3) => some (v :: vs, rest3)
        | none => none
      | ']' :: rest2 => some ([v], rest2)
      | _ => none

/-- Read one-or-more comma-separated `"key": value` members up to `}` (the
empty object is handled in `readVal`). -/
def readFields : Nat → List Char → Option (JFields × List Char)
  | 0, _ => none
  | fuel + 1, cs =>
    match skipBlanks cs with
    | '"' :: rest =>
      match readStrBody [] rest with
      | none => none
      | some (k, rest1) =>
        match skipBlanks rest1 with
        | ':' :: rest2 =>
          match readVal fuel rest2 with
          | none => none
          | some (v, rest3) =>
            match skipBlanks rest3 with
            | ',' :: rest4 =>
              match readFields fuel rest4 with
              | some (fs, rest5) => some ((k, v) :: fs, rest5)
              | none => none
            | '}' :: rest4 => some ([(k, v)], rest4)
            | _ => none
        | _ => none
    | _ => none

end

/-- `json.loads` for the model: parse a complete document, requiring only
whitespace after the value.  `none` is `json.JSONDecodeError`. -/
def loads (s : String) : Option JVal :=
  match readVal (s.toList.length + 1) s.toList with
  | some (v, rest) => if (skipBlanks rest).isEmpty then some v else none
  | none => none

/-! ### The state file -/

/-- The state file as `StateManager` sees it: missing, unreadable
(`IOError` on read), or readable with some content. -/
inductive StateFile where
  | absent
  | unreadable
  | readable (content : String)

/-- `StateManager._load` followed by the constructor's assignment
(`src/core/state_manager.py`, lines 14-31): a missing file, an `IOError` and
a `json.JSONDecodeError` all degrade to the empty state `{}`. -/
def state_manager_init : StateFile → JVal
  | .absent => .jobj []
  | .unreadable => .jobj []
  | .readable content =>
    match loads content with
    | some v => v
    | none => .jobj []

/-- `StateManager.save` (`src/core/state_manager.py`, lines 33-41): the state
file now holds the serialised state. -/
def state_manager_save (st : JVal) : StateFile :=
  .readable (dumps st)

/-! ### Support definitions for the statements and proofs -/

/-- The input does not continue a decimal literal: empty, or headed by a
non-digit. -/
def noDigitHead : List Char → Bool
  | [] => true
  | c :: _ => !isDigitCh c

/-- Whether `w` contains `k` consecutive characters all satisfying `S`. -/
def runCap (S : Char → Bool) (k : Nat) : List Char → Bool
  | [] => decide (k = 0)
  | c :: cs => decide (k ≤ ((c :: cs).takeWhile S).length) || runCap S k cs

/-- Claim C5's literal reading of `extract_session`: the first jar entry whose
name equals the target name and whose recorded domain contains the target
domain — exactly as given, with no leading-dot stripping — yields its value. -/
def extract_session_claim (cookies : List BrowserCookie) (domain : String) (name : String) :
    Option String :=
  match cookies with
  | [] => none
  | ck :: rest =>
    if ck.name == name && inStr domain ck.domain then some ck.value
    else extract_session_claim rest domain name

/-- Claim C4's reading of one `wait_callback` tick: success iff some
non-negated pattern's substring is present and no negated pattern's substring
is present. -/
def declares_success_claim (ps : List String) (url : String) : Bool :=
  (ps.any fun p => !(p.toList.take 1 == ['!']) && inStr p url)
    && !(ps.any fun p => (p.toList.take 1 == ['!']) && inStr (String.mk (p.toList.drop 1)) url)

/-! ## Generic lemmas about the substring test -/

theorem hasInfixCL_iff {needle hay : List Char} :
    hasInfixCL needle hay = true ↔ needle <:+: hay := by
  induction hay with
  | nil => simp [hasInfixCL, List.isEmpty_iff, List.infix_nil]
  | cons c cs ih =>
    simp [hasInfixCL, List.isPrefixOf_iff_prefix, ih, List.infix_cons_iff]

theorem inStr_iff {needle hay : String} :
    inStr needle hay = true ↔ needle.toList <:+: hay.toList :=
  hasInfixCL_iff

theorem inStr_eq_false_iff {needle hay : String} :
    inStr needle hay = false ↔ ¬ needle.toList <:+: hay.toList := by
  rw [← inStr_iff, Bool.not_eq_true]

theorem string_eq_of_toList {s t : String} (h : s.toList = t.toList) : s = t := by
  cases s; cases t; simp only [String.toList] at h; rw [h]

/-- An occurrence of `v` inside `X ++ c :: Y` that cannot cover `c` lies
entirely inside `X` or entirely inside `Y`. -/
theorem infix_split {α : Type} {v X Y : List α} {c : α}
    (h : v <:+: X ++ c :: Y) (hc : c ∉ v) : v <:+: X ∨ v <:+: Y := by
  rcases h with ⟨p, s, hps⟩
  rw [List.append_assoc] at hps
  rcases List.append_eq_append_iff.mp hps with ⟨a2, hX, hvs⟩ | ⟨c2, _, hcy⟩
  · rcases List.append_eq_append_iff.mp hvs with ⟨b, ha2, _⟩ | ⟨d, hv, hcyd⟩
    · exact Or.inl ⟨p, b, by rw [hX, ha2, List.append_assoc]⟩
    · cases d with
      | nil => exact Or.inl ⟨p, [], by simp [hX, hv]⟩
      | cons d0 d' =>
        exfalso
        have hd0 : d0 = c := by
          have h3 := hcyd.symm
          simp only [List.cons_append] at h3
          exact ((List.cons.injEq _ _ _ _).mp h3).1
        exact hc (by rw [hv, hd0]; simp)
  · cases c2 with
    | nil =>
      simp only [List.nil_append] at hcy
      cases v with
      | nil => exact Or.inr List.nil_infix
      | cons v0 v' =>
        exfalso
        have hv0 : v0 = c := by
          have := hcy
          simp only [List.cons_append] at this
          exact ((List.cons.injEq _ _ _ _).mp this).1.symm
        exact hc (by rw [hv0]; simp)
    | cons c20 c2' =>
      have hY : Y = c2' ++ v ++ s := by
        have := hcy
        simp only [List.cons_append] at this
        have h2 := (List.cons.injEq _ _ _ _).mp this
        rw [h2.2, List.append_assoc]
      exact Or.inr ⟨c2', s, hY.symm⟩

/-- An occurrence of a nonempty `v` in `a ++ Z` avoiding every character of
`a` lies entirely inside `Z`. -/
theorem infix_append_disjoint {α : Type} {v Z : List α} :
    ∀ {a : List α}, v <:+: a ++ Z → v ≠ [] → (∀ c ∈ a, c ∉ v) → v <:+: Z := by
  intro a
  induction a with
  | nil => intro h _ _; simpa using h
  | cons x xs ih =>
    intro h hne hd
    have hx : x ∉ v := hd x (by simp)
    have h2 : v <:+: ([] : List α) ++ x :: (xs ++ Z) := by simpa using h
    rcases infix_split h2 hx with h3 | h3
    · exact absurd (List.infix_nil.mp h3) hne
    · exact ih h3 hne (fun c hc => hd c (by simp [hc]))

theorem runCap_zero {S : Char → Bool} {w : List Char} : runCap S 0 w = true := by
  cases w <;> simp [runCap]

theorem takeWhile_all_append {S : Char → Bool} :
    ∀ {v s : List Char}, (∀ c ∈ v, S c = true) →
      v.length ≤ ((v ++ s).takeWhile S).length := by
  intro v
  induction v with
  | nil => simp
  | cons c cs ih =>
    intro s hall
    have hc : S c = true := hall c (by simp)
    simp only [List.cons_append, List.takeWhile_cons, hc, if_true, List.length_cons]
    have := @ih s (fun x hx => hall x (by simp [hx]))
    omega

theorem runCap_append_left {S : Char → Bool} {k : Nat} {w : List Char} :
    ∀ {p : List Char}, runCap S k w = true → runCap S k (p ++ w) = true := by
  intro p
  induction p with
  | nil => intro h; simpa using h
  | cons x xs ih =>
    intro h
    simp only [List.cons_append, runCap, Bool.or_eq_true]
    exact Or.inr (ih h)

theorem runCap_of_infix {S : Char → Bool} {v w : List Char}
    (h : v <:+: w) (hall : ∀ c ∈ v, S c = true) : runCap S v.length w = true := by
  rcases h with ⟨p, s, rfl⟩
  rw [List.append_assoc]
  apply runCap_append_left
  cases v with
  | nil => exact runCap_zero
  | cons c cs =>
    simp only [runCap, List.cons_append, Bool.or_eq_true]
    left
    have := @takeWhile_all_append S (c :: cs) s hall
    simp only [List.cons_append] at this
    simpa using this

theorem runCap_mono {S : Char → Bool} {j k : Nat} (hjk : j ≤ k) :
    ∀ {w : List Char}, runCap S k w = true → runCap S j w = true := by
  intro w
  induction w with
  | nil =>
    simp only [runCap, decide_eq_true_eq]
    omega
  | cons c cs ih =>
    simp only [runCap, Bool.or_eq_true, decide_eq_true_eq]
    rintro (h | h)
    · exact Or.inl (by omega)
    · exact Or.inr (ih h)

/-- When `w` has no run of `13` characters from `S`, no all-`S` string of
length at least `13` occurs in it. -/
theorem not_infix_of_no_run {S : Char → Bool} {v w : List Char}
    (hall : ∀ c ∈ v, S c = true) (hlen : 13 ≤ v.length)
    (hw : runCap S 13 w = false) : ¬ v <:+: w := by
  intro h
  have h1 := runCap_of_infix h hall
  have h2 := runCap_mono hlen h1
  rw [hw] at h2
  cases h2

theorem not_mem_of_all {S : Char → Bool} {v : List Char}
    (hall : ∀ c ∈ v, S c = true) {c : Char} (hc : S c = false) : c ∉ v := by
  intro hmem
  rw [hall c hmem] at hc
  cases hc

/-! ## Lemmas about `mask_sensitive` -/

theorem mask_sensitive_short {value : String} {n : Nat}
    (h : value.toList.length ≤ n * 2) :
    mask_sensitive value n = String.mk (List.replicate value.toList.length '*') := by
  by_cases hv : value = ""
  · subst hv
    rfl
  · rw [mask_sensitive, if_neg hv, if_pos h]

theorem mask_sensitive_long {value : String} {n : Nat}
    (h : n * 2 < value.toList.length) (hn : n ≠ 0) :
    (mask_sensitive value n).toList
      = value.toList.take n
        ++ List.replicate (value.toList.length - n * 2) '*'
        ++ value.toList.drop (value.toList.length - n) := by
  have hv : value ≠ "" := by
    intro hv
    rw [hv] at h
    simp at h
  rw [mask_sensitive, if_neg hv, if_neg (by omega), pyLastSlice, if_neg hn]
  rfl

theorem take_of_append_left {A rest : List Char} {n : Nat} (h : A.length = n) :
    (A ++ rest).take n = A := by
  subst h
  simp

theorem drop_of_append_left {A rest : List Char} {n : Nat} (h : A.length = n) :
    (A ++ rest).drop n = rest := by
  subst h
  simp

/-! ## Lemmas about the poll loops -/

theorem wait_callback_loop_no_match {u : Nat → String} {ps : List String} :
    ∀ (rem j : Nat),
      (∀ k, j ≤ k → k < j + rem → patterns_match ps (u k) = false) →
      wait_callback_loop u ps j rem = (false, j + rem) := by
  intro rem
  induction rem with
  | zero => intro j _; simp [wait_callback_loop]
  | succ rem ih =>
    intro j h
    have hj : patterns_match ps (u j) = false := h j (le_refl j) (by omega)
    rw [wait_callback_loop, hj]
    simp only [Bool.false_eq_true, if_false]
    have := ih (j + 1) (fun k hk1 hk2 => h k (by omega) (by omega))
    rw [this]
    congr 1
    omega

theorem wait_callback_loop_success {u : Nat → String} {ps : List String} :
    ∀ (rem j i : Nat),
      wait_callback_loop u ps j rem = (true, i) →
      patterns_match ps (u i) = true := by
  intro rem
  induction rem with
  | zero =>
    intro j i h
    simp [wait_callback_loop] at h
  | succ rem ih =>
    intro j i h
    rw [wait_callback_loop] at h
    by_cases hm : patterns_match ps (u j) = true
    · rw [hm] at h
      simp only [if_true] at h
      obtain ⟨-, rfl⟩ := Prod.mk.injEq .. ▸ h
      exact hm
    · rw [Bool.not_eq_true] at hm
      rw [hm] at h
      simp only [Bool.false_eq_true, if_false] at h
      exact ih (j + 1) i h

theorem patterns_match_eq_any {ps : List String} {url : String} :
    patterns_match ps url
      = ps.any (fun p => !(p.toList.take 1 == ['!']) && inStr p url) := by
  induction ps with
  | nil => simp [patterns_match]
  | cons p rest ih =>
    rw [patterns_match]
    by_cases hneg : (p.toList.take 1 == ['!']) = true
    · rw [if_pos hneg]
      have hsame : (if inStr (String.mk (p.toList.drop 1)) url = false
          then patterns_match rest url else patterns_match rest url)
          = patterns_match rest url := by
        split <;> rfl
      rw [hsame, ih, List.any_cons]
      simp only [hneg, Bool.not_true, Bool.false_and, Bool.false_or]
    · rw [if_neg hneg, List.any_cons]
      rw [Bool.not_eq_true] at hneg
      by_cases hin : inStr p url = true
      · simp only [hin, if_true, hneg, Bool.not_false, Bool.true_and, Bool.true_or]
      · rw [Bool.not_eq_true] at hin
        simp only [hin, Bool.false_eq_true, if_false, hneg, Bool.not_false, Bool.true_and,
          Bool.false_or, ih]

theorem device_verification_loop_final {u : Nat → String} {wait : Nat}
    (h : on_device_verification_url (u wait) = false) :
    ∀ (rem i : Nat), (device_verification_loop u wait i rem).1 = true := by
  intro rem
  induction rem with
  | zero =>
    intro i
    rw [device_verification_loop, h]
    simp
  | succ rem ih =>
    intro i
    rw [device_verification_loop]
    by_cases hg : (i % 5 == 0 && decide (0 < i)) = true
    · rw [if_pos hg]
      by_cases hc : on_device_verification_url (u (i + 1)) = false
      · rw [if_pos hc]
      · rw [if_neg hc]
        exact ih (i + 1)
    · rw [if_neg hg]
      exact ih (i + 1)

theorem device_verification_loop_checks {u : Nat → String} {wait : Nat} :
    ∀ (rem i : Nat),
      ((device_verification_loop u wait i rem).2.2).all
        (fun j => j % 5 == 0 && decide (0 < j)) = true := by
  intro rem
  induction rem with
  | zero =>
    intro i
    rw [device_verification_loop]
    split <;> simp
  | succ rem ih =>
    intro i
    rw [device_verification_loop]
    by_cases hg : (i % 5 == 0 && decide (0 < i)) = true
    · rw [if_pos hg]
      by_cases hc : on_device_verification_url (u (i + 1)) = false
      · rw [if_pos hc]
        simpa using hg
      · rw [if_neg hc]
        simp only [List.all_cons, Bool.and_eq_true]
        exact ⟨(Bool.and_eq_true _ _).mp hg, ih (i + 1)⟩
    · rw [if_neg hg]
      exact ih (i + 1)

/-! ## Claim theorems -/

/-- Claim C1 (code bug): the claim says a tick whose URL is the root login URL
makes the 2FA push-approval poll fail immediately at that tick.  The code
checks "no longer on a two-factor URL" first, and the root login URL does not
contain the two-factor marker, so with a stub that redirects to the root login
URL at tick 3 the poll returns at tick 3 — but with success, not failure: the
login-redirect failure branch is unreachable there. -/
theorem C1_two_factor_mobile_login_redirect :
    handle_2fa_mobile
      (fun t => if t < 3 then "https://github.com/sessions/two-factor/mobile"
                else "https://github.com/login") 120
      = (true, 3)
    ∧ inStr GitHubUrls.TWO_FACTOR GitHubUrls.LOGIN = false := by
  constructor
  · decide
  · decide

/-- Claim C3: in the device-verification poll with a 30-tick budget and a stub
whose URL drops the verification marker from tick 7 on, the call succeeds at
wall-clock tick 11 (the re-check of iteration 10), within the claimed bound of
tick 7 plus one 5-tick re-check interval; the URL is re-checked exactly at the
positive multiples of 5 among the loop iterations, and when the URL has left
the marker by the end of the budget the final post-loop check reports success
for any trace and budget. -/
theorem C3_device_verification_poll :
    handle_device_verification
      (fun t => if t < 7 then "https://github.com/sessions/verified-device"
                else "https://github.com/") 30
      = (true, 11, [5, 10])
    ∧ 11 ≤ 7 + 5
    ∧ (∀ (u : Nat → String) (wait : Nat),
        on_device_verification_url (u wait) = false →
        (handle_device_verification u wait).1 = true)
    ∧ (∀ (u : Nat → String) (wait : Nat),
        ((handle_device_verification u wait).2.2).all
          (fun j => j % 5 == 0 && decide (0 < j)) = true) := by
  refine ⟨by decide, by decide, ?_, ?_⟩
  · intro u wait h
    exact device_verification_loop_final h wait 0
  · intro u wait
    exact device_verification_loop_checks wait 0

/-- Witness for C3's quantified parts at a concrete trace: a stub that never
shows the marker passes the final check and succeeds. -/
theorem C3_device_verification_poll_witness :
    on_device_verification_url ((fun _ => "https://github.com/") 4) = false
    ∧ (handle_device_verification (fun _ => "https://github.com/") 4).1 = true :=
  ⟨by decide, C3_device_verification_poll.2.2.1 (fun _ => "https://github.com/") 4 (by decide)⟩

/-- Claim C4 is refuted: a negated pattern whose substring IS present in the
URL does not disqualify success.  With patterns `["!bad", "good"]` and a URL
containing both `good` and `bad`, the claim's predicate declares no success,
yet `wait_callback` succeeds at tick 0. -/
theorem C4_wait_callback_counterexample :
    declares_success_claim ["!bad", "good"] "https://app/cb?good&bad" = false
    ∧ wait_callback (fun _ => "https://app/cb?good&bad") ["!bad", "good"] 5 = (true, 0) := by
  constructor
  · decide
  · decide

/-- Claim C4 as amended: a `wait_callback` tick declares success iff some
non-negated pattern's substring is present in the current URL — negated
patterns never declare success and never disqualify a match — and when no
tick within the timeout has a positive match, the call returns failure at the
full timeout; conversely a successful return at tick `i` means tick `i`'s URL
had a positive match. -/
theorem C4_wait_callback_amended :
    (∀ (ps : List String) (url : String),
      patterns_match ps url
        = ps.any (fun p => !(p.toList.take 1 == ['!']) && inStr p url))
    ∧ (∀ (u : Nat → String) (ps : List String) (timeout : Nat),
        (∀ i, i < timeout → patterns_match ps (u i) = false) →
        wait_callback u ps timeout = (false, timeout))
    ∧ (∀ (u : Nat → String) (ps : List String) (timeout i : Nat),
        wait_callback u ps timeout = (true, i) →
        patterns_match ps (u i) = true) := by
  refine ⟨fun ps url => patterns_match_eq_any, ?_, ?_⟩
  · intro u ps timeout h
    have := @wait_callback_loop_no_match u ps timeout 0
      (fun k hk1 hk2 => h k (by omega))
    simpa [wait_callback] using this
  · intro u ps timeout i h
    exact wait_callback_loop_success timeout 0 i h

/-- Witness for C4's amended statement at concrete inputs: a trace with no
positive match fails at the full timeout, and a trace matching at tick 0
yields a positive match at the returned tick. -/
theorem C4_wait_callback_amended_witness :
    wait_callback (fun _ => "https://x/") ["good"] 3 = (false, 3)
    ∧ patterns_match ["good"] ((fun _ => "https://x/good") 0) = true :=
  ⟨C4_wait_callback_amended.2.1 (fun _ => "https://x/") ["good"] 3 (fun _ _ => rfl),
   C4_wait_callback_amended.2.2 (fun _ => "https://x/good") ["good"] 3 0 (by decide)⟩

/-- Claim C5 is refuted for dotted target domains: the code strips leading
dots from the target before the substring test, so the default target
`.github.com` matches a cookie recorded under `github.com`, while the claim's
literal "recorded domain contains the target domain" test does not. -/
theorem C5_extract_session_counterexample :
    extract_session [⟨"user_session", "sessionvalue", "github.com"⟩]
        ".github.com" "user_session" = some "sessionvalue"
    ∧ extract_session_claim [⟨"user_session", "sessionvalue", "github.com"⟩]
        ".github.com" "user_session" = none := by
  constructor
  · decide
  · decide

/-- Claim C5 as amended: `extract_session` returns the value of the first jar
entry whose name equals the target name and whose recorded domain contains the
target domain with leading dots stripped as a substring, and returns none when
no entry matches; in particular a jar whose entries all carry domain
`example.com` never matches target domain `github.com`. -/
theorem C5_extract_session_amended :
    (∀ (cookies : List BrowserCookie) (domain name : String),
      extract_session cookies domain name
        = extract_session_claim cookies (lstripDots domain) name)
    ∧ (∀ (cookies : List BrowserCookie) (name : String),
        (∀ ck ∈ cookies, ck.domain = "example.com") →
        extract_session cookies "github.com" name = none) := by
  constructor
  · intro cookies domain name
    induction cookies with
    | nil => rfl
    | cons ck rest ih =>
      rw [extract_session, extract_session_claim, ih]
  · intro cookies name h
    induction cookies with
    | nil => rfl
    | cons ck rest ih =>
      have hd : ck.domain = "example.com" := h ck (by simp)
      have hin : inStr (lstripDots "github.com") ck.domain = false := by
        rw [hd]
        decide
      rw [extract_session, hin, Bool.and_false]
      simp only [Bool.false_eq_true, if_false]
      exact ih (fun c hc => h c (by simp [hc]))

/-- Witness for C5's amended statement at concrete inputs. -/
theorem C5_extract_session_amended_witness :
    extract_session [⟨"user_session", "v2", "example.com"⟩] ".github.com" "user_session"
      = extract_session_claim [⟨"user_session", "v2", "example.com"⟩]
          (lstripDots ".github.com") "user_session"
    ∧ extract_session [⟨"user_session", "v2", "example.com"⟩] "github.com" "user_session"
        = none :=
  ⟨C5_extract_session_amended.1 [⟨"user_session", "v2", "example.com"⟩] ".github.com"
      "user_session",
   C5_extract_session_amended.2 [⟨"user_session", "v2", "example.com"⟩] "user_session"
      (by decide)⟩

/-- Claim C6 (code bug at `show_chars = 0`): for `n = 0` and a nonempty value
Python's `value[-0:]` is the whole string, so `mask_sensitive("abc", 0)`
returns `"***abc"` instead of the fully masked `"***"` the claim (and the
function's own head/tail contract) requires.  For every `n ≥ 1` the claim
holds: a value of length at most `2n` is fully masked, and a longer value
keeps its first and last `n` characters, keeps its length, and has `*` at
every interior position. -/
theorem C6_mask_sensitive :
    mask_sensitive "abc" 0 = "***abc"
    ∧ ∀ (value : String) (n : Nat), 1 ≤ n →
        (value.toList.length ≤ n * 2 →
          mask_sensitive value n = String.mk (List.replicate value.toList.length '*'))
        ∧ (n * 2 < value.toList.length →
            (mask_sensitive value n).toList.length = value.toList.length
            ∧ (mask_sensitive value n).toList.take n = value.toList.take n
            ∧ (mask_sensitive value n).toList.drop (value.toList.length - n)
                = value.toList.drop (value.toList.length - n)
            ∧ ∀ c ∈ ((mask_sensitive value n).toList.drop n).take
                (value.toList.length - n * 2), c = '*') := by
  constructor
  · decide
  · intro value n hn
    constructor
    · exact fun h => mask_sensitive_short h
    · intro h
      have hmask := mask_sensitive_long h (by omega)
      have hA : (value.toList.take n).length = n := by
        rw [List.length_take]
        omega
      have hB : (List.replicate (value.toList.length - n * 2) '*').length
          = value.toList.length - n * 2 := List.length_replicate ..
      have hC : (value.toList.drop (value.toList.length - n)).length = n := by
        rw [List.length_drop]
        omega
      refine ⟨?_, ?_, ?_, ?_⟩
      · rw [hmask]
        simp only [List.length_append, hA, hB, hC]
        omega
      · rw [hmask, List.append_assoc]
        exact take_of_append_left hA
      · rw [hmask]
        have hAB : ((value.toList.take n)
            ++ List.replicate (value.toList.length - n * 2) '*').length
            = value.toList.length - n := by
          rw [List.length_append, hA, hB]
          omega
        exact drop_of_append_left hAB
      · intro c hc
        rw [hmask, List.append_assoc, drop_of_append_left hA,
          take_of_append_left hB] at hc
        exact List.eq_of_mem_replicate hc

/-- Witness for C6 at concrete inputs: `n = 4` on a short and on a long
value. -/
theorem C6_mask_sensitive_witness :
    mask_sensitive "abc" 4 = String.mk (List.replicate "abc".toList.length '*')
    ∧ (mask_sensitive "abcdefghijklmn" 4).toList.take 4 = "abcdefghijklmn".toList.take 4 :=
  ⟨(C6_mask_sensitive.2 "abc" 4 (by decide)).1 (by decide),
   ((C6_mask_sensitive.2 "abcdefghijklmn" 4 (by decide)).2 (by decide)).2.1⟩

/-! ## Lemmas about the state dictionary operations -/

theorem getKey_setKey_self {fields : JFields} {k : String} {v : JVal} :
    getKey (setKey fields k v) k = some v := by
  induction fields with
  | nil => simp [setKey, getKey]
  | cons kv rest ih =>
    obtain ⟨k2, v2⟩ := kv
    by_cases h : (k2 == k) = true
    · simp [setKey, getKey, h]
    · rw [Bool.not_eq_true] at h
      simp [setKey, getKey, h, ih]

theorem getKey_setKey_ne {fields : JFields} {k k2 : String} {v : JVal}
    (hne : k2 ≠ k) : getKey (setKey fields k v) k2 = getKey fields k2 := by
  induction fields with
  | nil =>
    have : (k == k2) = false := by
      simpa using fun h => hne h.symm
    simp [setKey, getKey, this]
  | cons kv rest ih =>
    obtain ⟨k3, v3⟩ := kv
    by_cases h : (k3 == k) = true
    · have h3 : k3 = k := by simpa using h
      have : (k3 == k2) = false := by
        simp only [beq_eq_false_iff_ne, ne_eq]
        intro hk
        exact hne (by rw [← hk, h3])
      simp [setKey, getKey, h, this]
    · rw [Bool.not_eq_true] at h
      by_cases h2 : (k3 == k2) = true
      · simp [setKey, getKey, h, h2]
      · rw [Bool.not_eq_true] at h2
        simp [setKey, getKey, h, h2, ih]

theorem setKey_setKey {fields : JFields} {k : String} {v w : JVal} :
    setKey (setKey fields k v) k w = setKey fields k w := by
  induction fields with
  | nil => simp [setKey]
  | cons kv rest ih =>
    obtain ⟨k2, v2⟩ := kv
    by_cases h : (k2 == k) = true
    · simp [setKey, h]
    · rw [Bool.not_eq_true] at h
      simp [setKey, h, ih]

theorem record_login_attempt_unseen {fs : JFields} {site : String}
    (h : getKey fs site = none) (success : Bool) (err : String)
    (tf dv : Bool) (now : String) :
    record_login_attempt (.jobj fs) site success err tf dv now
      = (site_record_update newSiteRecord success err tf dv now).map
          (fun r => .jobj (setKey fs site (.jobj r))) := by
  simp only [record_login_attempt, h, getKey_setKey_self, setKey_setKey]

theorem record_login_attempt_seen {fs : JFields} {site : String} {r : JFields}
    (h : getKey fs site = some (.jobj r)) (success : Bool) (err : String)
    (tf dv : Bool) (now : String) :
    record_login_attempt (.jobj fs) site success err tf dv now
      = (site_record_update r success err tf dv now).map
          (fun r9 => .jobj (setKey fs site (.jobj r9))) := by
  simp only [record_login_attempt, h]

/-- Claim C7: starting from any state with no record for a site, three failed
attempts followed by one success yield a site record with
`consecutive_failures = 0`, `total_failures = 3`, `total_successes = 1` and
`total_attempts = 4`; `is_healthy(site, 3)` is true for the unseen site, still
true after exactly two consecutive failures, and false after exactly three. -/
theorem C7_record_login_attempt_counters :
    ∀ (fs : JFields) (site e1 e2 e3 t1 t2 t3 t4 : String),
    getKey fs site = none →
    ∃ st1 st2 st3 st4 : JVal,
      record_login_attempt (.jobj fs) site false e1 false false t1 = some st1
      ∧ record_login_attempt st1 site false e2 false false t2 = some st2
      ∧ record_login_attempt st2 site false e3 false false t3 = some st3
      ∧ record_login_attempt st3 site true "" true false t4 = some st4
      ∧ (∃ fs4 r4, st4 = .jobj fs4 ∧ getKey fs4 site = some (.jobj r4)
          ∧ getKey r4 "consecutive_failures" = some (.jint 0)
          ∧ getKey r4 "total_failures" = some (.jint 3)
          ∧ getKey r4 "total_successes" = some (.jint 1)
          ∧ getKey r4 "total_attempts" = some (.jint 4))
      ∧ is_healthy (.jobj fs) site 3 = some true
      ∧ is_healthy st2 site 3 = some true
      ∧ is_healthy st3 site 3 = some false := by
  intro fs site e1 e2 e3 t1 t2 t3 t4 h
  have h1 : record_login_attempt (.jobj fs) site false e1 false false t1
      = some (.jobj (setKey fs site (.jobj
        [("total_attempts", .jint 1), ("total_successes", .jint 0),
         ("total_failures", .jint 1), ("consecutive_failures", .jint 1),
         ("last_attempt_time", .jstr t1), ("last_attempt_success", .jbool false),
         ("last_error", .jstr e1)]))) := by
    rw [record_login_attempt_unseen h]
    rfl
  have h2 : record_login_attempt (.jobj (setKey fs site (.jobj
        [("total_attempts", .jint 1), ("total_successes", .jint 0),
         ("total_failures", .jint 1), ("consecutive_failures", .jint 1),
         ("last_attempt_time", .jstr t1), ("last_attempt_success", .jbool false),
         ("last_error", .jstr e1)]))) site false e2 false false t2
      = some (.jobj (setKey fs site (.jobj
        [("total_attempts", .jint 2), ("total_successes", .jint 0),
         ("total_failures", .jint 2), ("consecutive_failures", .jint 2),
         ("last_attempt_time", .jstr t2), ("last_attempt_success", .jbool false),
         ("last_error", .jstr e2)]))) := by
    rw [record_login_attempt_seen getKey_setKey_self]
    rw [show site_record_update
        [("total_attempts", .jint 1), ("total_successes", .jint 0),
         ("total_failures", .jint 1), ("consecutive_failures", .jint 1),
         ("last_attempt_time", .jstr t1), ("last_attempt_success", .jbool false),
         ("last_error", .jstr e1)] false e2 false false t2
      = some [("total_attempts", .jint 2), ("total_successes", .jint 0),
         ("total_failures", .jint 2), ("consecutive_failures", .jint 2),
         ("last_attempt_time", .jstr t2), ("last_attempt_success", .jbool false),
         ("last_error", .jstr e2)] from rfl]
    rw [Option.map_some', setKey_setKey]
  have h3 : record_login_attempt (.jobj (setKey fs site (.jobj
        [("total_attempts", .jint 2), ("total_successes", .jint 0),
         ("total_failures", .jint 2), ("consecutive_failures", .jint 2),
         ("last_attempt_time", .jstr t2), ("last_attempt_success", .jbool false),
         ("last_error", .jstr e2)]))) site false e3 false false t3
      = some (.jobj (setKey fs site (.jobj
        [("total_attempts", .jint 3), ("total_successes", .jint 0),
         ("total_failures", .jint 3), ("consecutive_failures", .jint 3),
         ("last_attempt_time", .jstr t3), ("last_attempt_success", .jbool false),
         ("last_error", .jstr e3)]))) := by
    rw [record_login_attempt_seen getKey_setKey_self]
    rw [show site_record_update
        [("total_attempts", .jint 2), ("total_successes", .jint 0),
         ("total_failures", .jint 2), ("consecutive_failures", .jint 2),
         ("last_attempt_time", .jstr t2), ("last_attempt_success", .jbool false),
         ("last_error", .jstr e2)] false e3 false false t3
      = some [("total_attempts", .jint 3), ("total_successes", .jint 0),
         ("total_failures", .jint 3), ("consecutive_failures", .jint 3),
         ("last_attempt_time", .jstr t3), ("last_attempt_success", .jbool false),
         ("last_error", .jstr e3)] from rfl]
    rw [Option.map_some', setKey_setKey]
  have h4 : record_login_attempt (.jobj (setKey fs site (.jobj
        [("total_attempts", .jint 3), ("total_successes", .jint 0),
         ("total_failures", .jint 3), ("consecutive_failures", .jint 3),
         ("last_attempt_time", .jstr t3), ("last_attempt_success", .jbool false),
         ("last_error", .jstr e3)]))) site true "" true false t4
      = some (.jobj (setKey fs site (.jobj
        [("total_attempts", .jint 4), ("total_successes", .jint 1),
         ("total_failures", .jint 3), ("consecutive_failures", .jint 0),
         ("last_attempt_time", .jstr t4), ("last_attempt_success", .jbool true),
         ("last_error", .jstr e3), ("last_success_time", .jstr t4),
         ("two_factor_used", .jbool true),
         ("device_verification_used", .jbool false)]))) := by
    rw [record_login_attempt_seen getKey_setKey_self]
    rw [show site_record_update
        [("total_attempts", .jint 3), ("total_successes", .jint 0),
         ("total_failures", .jint 3), ("consecutive_failures", .jint 3),
         ("last_attempt_time", .jstr t3), ("last_attempt_success", .jbool false),
         ("last_error", .jstr e3)] true "" true false t4
      = some [("total_attempts", .jint 4), ("total_successes", .jint 1),
         ("total_failures", .jint 3), ("consecutive_failures", .jint 0),
         ("last_attempt_time", .jstr t4), ("last_attempt_success", .jbool true),
         ("last_error", .jstr e3), ("last_success_time", .jstr t4),
         ("two_factor_used", .jbool true),
         ("device_verification_used", .jbool false)] from rfl]
    rw [Option.map_some', setKey_setKey]
  refine ⟨_, _, _, _, h1, h2, h3, h4, ⟨_, _, rfl, getKey_setKey_self, rfl, rfl, rfl, rfl⟩,
    ?_, ?_, ?_⟩
  · simp only [is_healthy, get_site_state, h]
    rfl
  · simp only [is_healthy, get_site_state, getKey_setKey_self]
    rfl
  · simp only [is_healthy, get_site_state, getKey_setKey_self]
    rfl

/-- Witness for C7 at the empty initial state and concrete strings. -/
theorem C7_record_login_attempt_counters_witness :
    ∃ st1 st2 st3 st4 : JVal,
      record_login_attempt (.jobj []) "site" false "e1" false false "t1" = some st1
      ∧ record_login_attempt st1 "site" false "e2" false false "t2" = some st2
      ∧ record_login_attempt st2 "site" false "e3" false false "t3" = some st3
      ∧ record_login_attempt st3 "site" true "" true false "t4" = some st4
      ∧ (∃ fs4 r4, st4 = .jobj fs4 ∧ getKey fs4 "site" = some (.jobj r4)
          ∧ getKey r4 "consecutive_failures" = some (.jint 0)
          ∧ getKey r4 "total_failures" = some (.jint 3)
          ∧ getKey r4 "total_successes" = some (.jint 1)
          ∧ getKey r4 "total_attempts" = some (.jint 4))
      ∧ is_healthy (.jobj []) "site" 3 = some true
      ∧ is_healthy st2 "site" 3 = some true
      ∧ is_healthy st3 "site" 3 = some false :=
  C7_record_login_attempt_counters [] "site" "e1" "e2" "e3" "t1" "t2" "t3" "t4" rfl

theorem bumpCounter_eq_some {r r1 : JFields} {k : String}
    (h : bumpCounter r k = some r1) :
    ∃ v n, getKey r k = some v ∧ asPyInt v = some n
      ∧ r1 = setKey r k (.jint (n + 1)) := by
  simp only [bumpCounter, bind, Option.bind_eq_some, pure, Option.some.injEq] at h
  obtain ⟨v, hv, n, hn, hr1⟩ := h
  exact ⟨v, n, hv, hn, hr1.symm⟩

theorem site_record_update_failure {r r2 : JFields} {err now : String} {tf dv : Bool}
    (h : site_record_update r false err tf dv now = some r2) :
    ∃ n m cf : Int, r2 = setKey (setKey (setKey (setKey (setKey (setKey r
        "total_attempts" (.jint (n + 1)))
        "last_attempt_time" (.jstr now))
        "last_attempt_success" (.jbool false))
        "total_failures" (.jint (m + 1)))
        "consecutive_failures" (.jint (cf + 1)))
        "last_error" (.jstr err) := by
  simp only [site_record_update, bind, Option.bind_eq_some, Bool.false_eq_true, if_false,
    pure, Option.some.injEq] at h
  obtain ⟨r1, hb1, r4, hb4, cf, hcf, hr2⟩ := h
  obtain ⟨v1, n, hv1, hn, hr1⟩ := bumpCounter_eq_some hb1
  obtain ⟨v4, m, hv4, hm, hr4⟩ := bumpCounter_eq_some hb4
  refine ⟨n, m, cf, ?_⟩
  rw [← hr2, hr4, hr1]

/-- Claim C10: on the failure path, `record_login_attempt` leaves
`total_successes`, `last_success_time`, `two_factor_used` and
`device_verification_used` untouched — in fact it modifies no record field
outside `total_attempts`, `total_failures`, `consecutive_failures`,
`last_attempt_time`, `last_attempt_success` and `last_error` — and leaves
every other site's record untouched. -/
theorem C10_record_failure_frame :
    ∀ (fs : JFields) (site : String) (r : JFields) (err now : String)
      (tf dv : Bool) (st2 : JVal),
    getKey fs site = some (.jobj r) →
    record_login_attempt (.jobj fs) site false err tf dv now = some st2 →
    ∃ r2 : JFields, st2 = .jobj (setKey fs site (.jobj r2))
      ∧ getKey r2 "total_successes" = getKey r "total_successes"
      ∧ getKey r2 "last_success_time" = getKey r "last_success_time"
      ∧ getKey r2 "two_factor_used" = getKey r "two_factor_used"
      ∧ getKey r2 "device_verification_used" = getKey r "device_verification_used"
      ∧ (∀ k2, k2 ∉ ["total_attempts", "total_failures", "consecutive_failures",
          "last_attempt_time", "last_attempt_success", "last_error"] →
          getKey r2 k2 = getKey r k2)
      ∧ (∀ site2, site2 ≠ site →
          getKey (setKey fs site (.jobj r2)) site2 = getKey fs site2) := by
  intro fs site r err now tf dv st2 hr hrec
  rw [record_login_attempt_seen hr] at hrec
  obtain ⟨r2, hupd, hmap⟩ := Option.map_eq_some'.mp hrec
  obtain ⟨n, m, cf, hr2⟩ := site_record_update_failure hupd
  have hframe : ∀ k2, k2 ∉ ["total_attempts", "total_failures", "consecutive_failures",
      "last_attempt_time", "last_attempt_success", "last_error"] →
      getKey r2 k2 = getKey r k2 := by
    intro k2 hk2
    simp only [List.mem_cons, List.not_mem_nil, or_false, not_or] at hk2
    obtain ⟨ha, hf, hc, hlt, hls, hle⟩ := hk2
    rw [hr2, getKey_setKey_ne hle, getKey_setKey_ne hc, getKey_setKey_ne hf,
      getKey_setKey_ne hls, getKey_setKey_ne hlt, getKey_setKey_ne ha]
  exact ⟨r2, hmap.symm, hframe _ (by decide), hframe _ (by decide), hframe _ (by decide),
    hframe _ (by decide), hframe, fun site2 hs => getKey_setKey_ne hs⟩

/-- Witness for C10 at a concrete state and record. -/
theorem C10_record_failure_frame_witness :
    ∃ r2 : JFields,
      JVal.jobj [("s", JVal.jobj
          [("total_attempts", JVal.jint 2), ("total_successes", JVal.jint 1),
           ("total_failures", JVal.jint 1), ("consecutive_failures", JVal.jint 1),
           ("last_success_time", JVal.jstr "t0"), ("last_attempt_time", JVal.jstr "t1"),
           ("last_attempt_success", JVal.jbool false), ("last_error", JVal.jstr "boom")])]
        = .jobj (setKey [("s", JVal.jobj
          [("total_attempts", JVal.jint 1), ("total_successes", JVal.jint 1),
           ("total_failures", JVal.jint 0), ("consecutive_failures", JVal.jint 0),
           ("last_success_time", JVal.jstr "t0")])] "s" (.jobj r2))
      ∧ getKey r2 "total_successes"
          = getKey [("total_attempts", JVal.jint 1), ("total_successes", JVal.jint 1),
             ("total_failures", JVal.jint 0), ("consecutive_failures", JVal.jint 0),
             ("last_success_time", JVal.jstr "t0")] "total_successes"
      ∧ getKey r2 "last_success_time"
          = getKey [("total_attempts", JVal.jint 1), ("total_successes", JVal.jint 1),
             ("total_failures", JVal.jint 0), ("consecutive_failures", JVal.jint 0),
             ("last_success_time", JVal.jstr "t0")] "last_success_time"
      ∧ getKey r2 "two_factor_used"
          = getKey [("total_attempts", JVal.jint 1), ("total_successes", JVal.jint 1),
             ("total_failures", JVal.jint 0), ("consecutive_failures", JVal.jint 0),
             ("last_success_time", JVal.jstr "t0")] "two_factor_used"
      ∧ getKey r2 "device_verification_used"
          = getKey [("total_attempts", JVal.jint 1), ("total_successes", JVal.jint 1),
             ("total_failures", JVal.jint 0), ("consecutive_failures", JVal.jint 0),
             ("last_success_time", JVal.jstr "t0")] "device_verification_used"
      ∧ (∀ k2, k2 ∉ ["total_attempts", "total_failures", "consecutive_failures",
          "last_attempt_time", "last_attempt_success", "last_error"] →
          getKey r2 k2
            = getKey [("total_attempts", JVal.jint 1), ("total_successes", JVal.jint 1),
               ("total_failures", JVal.jint 0), ("consecutive_failures", JVal.jint 0),
               ("last_success_time", JVal.jstr "t0")] k2)
      ∧ (∀ site2, site2 ≠ "s" →
          getKey (setKey [("s", JVal.jobj
            [("total_attempts", JVal.jint 1), ("total_successes", JVal.jint 1),
             ("total_failures", JVal.jint 0), ("consecutive_failures", JVal.jint 0),
             ("last_success_time", JVal.jstr "t0")])] "s" (.jobj r2)) site2
            = getKey [("s", JVal.jobj
              [("total_attempts", JVal.jint 1), ("total_successes", JVal.jint 1),
               ("total_failures", JVal.jint 0), ("consecutive_failures", JVal.jint 0),
               ("last_success_time", JVal.jstr "t0")])] site2) :=
  C10_record_failure_frame
    [("s", JVal.jobj
      [("total_attempts", JVal.jint 1), ("total_successes", JVal.jint 1),
       ("total_failures", JVal.jint 0), ("consecutive_failures", JVal.jint 0),
       ("last_success_time", JVal.jstr "t0")])]
    "s"
    [("total_attempts", JVal.jint 1), ("total_successes", JVal.jint 1),
     ("total_failures", JVal.jint 0), ("consecutive_failures", JVal.jint 0),
     ("last_success_time", JVal.jstr "t0")]
    "boom" "t1" false false
    (.jobj [("s", JVal.jobj
      [("total_attempts", JVal.jint 2), ("total_successes", JVal.jint 1),
       ("total_failures", JVal.jint 1), ("consecutive_failures", JVal.jint 1),
       ("last_success_time", JVal.jstr "t0"), ("last_attempt_time", JVal.jstr "t1"),
       ("last_attempt_success", JVal.jbool false), ("last_error", JVal.jstr "boom")])])
    rfl rfl

/-! ## Lemmas about the cookie-save notification messages -/

theorem toList_of_append (s t : String) : (s ++ t).toList = s.toList ++ t.toList := rfl

/-- The environment-hint notification contains the raw cookie value. -/
theorem env_message_contains_value (value env_name : String) :
    inStr value (save_to_env_message value env_name) = true := by
  rw [inStr_iff]
  refine ⟨("🔑 <b>新 Cookie</b>\n\n请设置环境变量 <b>" : String).toList
      ++ env_name.toList ++ ("</b>:\n<code>" : String).toList,
    ("</code>" : String).toList, ?_⟩
  simp only [save_to_env_message, toList_of_append, List.append_assoc]

/-- The secret-store fallback notification never contains an alphanumeric
cookie value of length at least 13 that is not part of the secret's name:
every such occurrence would need 13 consecutive alphanumeric characters, and
outside the secret name the message offers at most 6 (the `Cookie`/`Secret`
words of the template and the 6-character head and tail of the mask). -/
theorem secret_message_no_raw_value {value secret_name : String}
    (hall : ∀ c ∈ value.toList, (fun c : Char => c.isAlphanum) c = true)
    (hlen : 13 ≤ value.toList.length)
    (hname : ¬ value.toList <:+: secret_name.toList) :
    inStr value (secret_manual_update_message value secret_name) = false := by
  rw [inStr_eq_false_iff]
  intro hin
  have hmask := @mask_sensitive_long value 6 (by omega) (by omega)
  have hsplitrep : List.replicate (value.toList.length - 6 * 2) '*'
      = '*' :: List.replicate (value.toList.length - 13) '*' := by
    rw [show value.toList.length - 6 * 2 = (value.toList.length - 13) + 1 from by omega,
      List.replicate_succ]
  have hshape : (secret_manual_update_message value secret_name).toList
      = ("🔑 <b>新 Cookie</b>\n\n请手动更新 Secret <b" : String).toList
        ++ '>' :: (secret_name.toList
        ++ '<' :: (("/b>:\n<code" : String).toList
        ++ '>' :: (value.toList.take 6
        ++ '*' :: (List.replicate (value.toList.length - 13) '*'
        ++ (value.toList.drop (value.toList.length - 6)
        ++ '<' :: ("/code>" : String).toList))))) := by
    simp only [secret_manual_update_message, toList_of_append]
    rw [hmask, hsplitrep]
    rw [show ("🔑 <b>新 Cookie</b>\n\n请手动更新 Secret <b>" : String).toList
        = ("🔑 <b>新 Cookie</b>\n\n请手动更新 Secret <b" : String).toList ++ ['>'] from rfl]
    rw [show ("</b>:\n<code>" : String).toList
        = '<' :: (("/b>:\n<code" : String).toList ++ ['>']) from rfl]
    rw [show ("</code>" : String).toList = '<' :: ("/code>" : String).toList from rfl]
    simp only [List.append_assoc, List.cons_append, List.singleton_append, List.nil_append]
  rw [hshape] at hin
  have hne : value.toList ≠ [] := by
    intro h
    rw [h] at hlen
    simp at hlen
  have hgt : ('>' : Char) ∉ value.toList := not_mem_of_all hall (by decide)
  have hlt : ('<' : Char) ∉ value.toList := not_mem_of_all hall (by decide)
  have hstar : ('*' : Char) ∉ value.toList := not_mem_of_all hall (by decide)
  rcases infix_split hin hgt with h | h
  · exact not_infix_of_no_run hall hlen (by decide) h
  rcases infix_split h hlt with h | h
  · exact hname h
  rcases infix_split h hgt with h | h
  · have hle := h.length_le
    have : (("/b>:\n<code" : String).toList).length = 10 := rfl
    omega
  rcases infix_split h hstar with h | h
  · have hle := h.length_le
    have : (value.toList.take 6).length ≤ 6 := by
      simp [List.length_take]
    omega
  have h2 := infix_append_disjoint h hne
    (fun c hc => by rw [List.eq_of_mem_replicate hc]; exact hstar)
  rcases infix_split h2 hlt with h | h
  · have hle := h.length_le
    have : (value.toList.drop (value.toList.length - 6)).length ≤ 6 := by
      simp [List.length_drop]
      omega
    omega
  · have hle := h.length_le
    have : (("/code>" : String).toList).length = 6 := rfl
    omega

/-- The file-save notification mentions only the path, so it cannot contain an
alphanumeric cookie value of length at least 13 that is not part of the
path. -/
theorem file_message_no_raw_value {value path : String}
    (hall : ∀ c ∈ value.toList, (fun c : Char => c.isAlphanum) c = true)
    (hlen : 13 ≤ value.toList.length)
    (hpath : ¬ value.toList <:+: path.toList) :
    inStr value (save_to_file_message path) = false := by
  rw [inStr_eq_false_iff]
  intro hin
  have hshape : (save_to_file_message path).toList
      = ("💾 Cookie 已保存到" : String).toList ++ ' ' :: path.toList := by
    simp only [save_to_file_message, toList_of_append]
    rw [show ("💾 Cookie 已保存到 " : String).toList
        = ("💾 Cookie 已保存到" : String).toList ++ [' '] from rfl]
    simp only [List.append_assoc, List.singleton_append]
  rw [hshape] at hin
  have hsp : (' ' : Char) ∉ value.toList := not_mem_of_all hall (by decide)
  rcases infix_split hin hsp with h | h
  · exact not_infix_of_no_run hall hlen (by decide) h
  · exact hpath h

/-- Claim C2 is refuted: the environment-hint target's notification
(`CookieManager._save_to_env`) interpolates the raw cookie value, so a cookie
value appears unmasked in a Notifier message emitted while saving a cookie;
masking it (at the default or the secret-path width) would change it. -/
theorem C2_unmasked_value_counterexample :
    inStr "abcdefghijklmnop" (save_to_env_message "abcdefghijklmnop" "GH_COOKIE") = true
    ∧ mask_sensitive "abcdefghijklmnop" 4 ≠ "abcdefghijklmnop"
    ∧ mask_sensitive "abcdefghijklmnop" 6 ≠ "abcdefghijklmnop" := by
  refine ⟨env_message_contains_value "abcdefghijklmnop" "GH_COOKIE", ?_, ?_⟩
  · decide
  · decide

/-- Claim C2 as amended: notifications produced while saving a cookie to the
github-secret fallback and file targets never contain the raw cookie value
(for an alphanumeric value of length at least 13 that is not a substring of
the secret name or the file path) — the secret fallback shows only
`mask_sensitive(value, 6)` and the file message only the path — while the
environment-hint notification deliberately contains the raw value, so the
human can set the variable. -/
theorem C2_cookie_value_masking_amended :
    ∀ (value secret_name env_name path : String),
      (∀ c ∈ value.toList, (fun c : Char => c.isAlphanum) c = true) →
      13 ≤ value.toList.length →
      ¬ value.toList <:+: secret_name.toList →
      ¬ value.toList <:+: path.toList →
      inStr value (secret_manual_update_message value secret_name) = false
      ∧ inStr value (save_to_file_message path) = false
      ∧ inStr value (save_to_env_message value env_name) = true := by
  intro value secret_name env_name path hall hlen hname hpath
  exact ⟨secret_message_no_raw_value hall hlen hname,
    file_message_no_raw_value hall hlen hpath,
    env_message_contains_value value env_name⟩

/-- Witness for C2's amended statement at a concrete cookie value, secret
name, environment variable and path. -/
theorem C2_cookie_value_masking_amended_witness :
    inStr "abcdef0123456" (secret_manual_update_message "abcdef0123456" "COOKIE") = false
    ∧ inStr "abcdef0123456" (save_to_file_message "/data/c.json") = false
    ∧ inStr "abcdef0123456" (save_to_env_message "abcdef0123456" "GH_COOKIE") = true :=
  C2_cookie_value_masking_amended "abcdef0123456" "COOKIE" "GH_COOKIE" "/data/c.json"
    (by decide) (by decide) (by decide) (by decide)

/-! ## Inverting the serialiser: digits and integers -/

theorem digit_char_spec {d : Nat} (h : d < 10) :
    (Char.ofNat (48 + d)).toNat = 48 + d ∧ isDigitCh (Char.ofNat (48 + d)) = true := by
  match d, h with
  | 0, _ => exact ⟨by decide, by decide⟩
  | 1, _ => exact ⟨by decide, by decide⟩
  | 2, _ => exact ⟨by decide, by decide⟩
  | 3, _ => exact ⟨by decide, by decide⟩
  | 4, _ => exact ⟨by decide, by decide⟩
  | 5, _ => exact ⟨by decide, by decide⟩
  | 6, _ => exact ⟨by decide, by decide⟩
  | 7, _ => exact ⟨by decide, by decide⟩
  | 8, _ => exact ⟨by decide, by decide⟩
  | 9, _ => exact ⟨by decide, by decide⟩

theorem natChars_all_digits (n : Nat) : ∀ c ∈ natChars n, isDigitCh c = true := by
  intro c hc
  rw [natChars] at hc
  by_cases h : n = 0
  · rw [if_pos h] at hc
    simp only [List.mem_singleton] at hc
    rw [hc]
    decide
  · rw [if_neg h] at hc
    rw [List.mem_reverse, List.mem_map] at hc
    obtain ⟨d, hd, rfl⟩ := hc
    exact (digit_char_spec (Nat.digits_lt_base (by norm_num) hd)).2

theorem natChars_ne_nil (n : Nat) : natChars n ≠ [] := by
  rw [natChars]
  by_cases h : n = 0
  · rw [if_pos h]
    simp
  · rw [if_neg h]
    simp [Nat.digits_eq_nil_iff_eq_zero, h]

theorem natChars_cons (n : Nat) :
    ∃ c t, natChars n = c :: t ∧ isDigitCh c = true := by
  match hn : natChars n with
  | [] => exact absurd hn (natChars_ne_nil n)
  | c :: t =>
    exact ⟨c, t, rfl, natChars_all_digits n c (hn ▸ List.mem_cons_self ..)⟩

theorem digitsVal_map_reverse (L : List Nat) (hL : ∀ d ∈ L, d < 10) :
    digitsVal ((L.map (fun d => Char.ofNat (48 + d))).reverse) = Nat.ofDigits 10 L := by
  induction L with
  | nil => simp [digitsVal, Nat.ofDigits_nil]
  | cons d L ih =>
    have hd : d < 10 := hL d (by simp)
    rw [List.map_cons, List.reverse_cons, digitsVal, List.foldl_append]
    rw [show (List.foldl (fun a c => a * 10 + (c.toNat - 48)) 0
        ((L.map (fun d => Char.ofNat (48 + d))).reverse)) = Nat.ofDigits 10 L from
      ih (fun x hx => hL x (by simp [hx]))]
    simp only [List.foldl_cons, List.foldl_nil]
    rw [(digit_char_spec hd).1, Nat.ofDigits_cons]
    omega

theorem digitsVal_natChars (n : Nat) : digitsVal (natChars n) = n := by
  rw [natChars]
  by_cases h : n = 0
  · rw [if_pos h, h]
    rfl
  · rw [if_neg h,
      digitsVal_map_reverse (Nat.digits 10 n) (fun d hd => Nat.digits_lt_base (by norm_num) hd),
      Nat.ofDigits_digits]

theorem splitDigits_exact :
    ∀ {ds rest : List Char}, (∀ c ∈ ds, isDigitCh c = true) → noDigitHead rest = true →
      splitDigits (ds ++ rest) = (ds, rest) := by
  intro ds
  induction ds with
  | nil =>
    intro rest _ hrest
    cases rest with
    | nil => rfl
    | cons c t =>
      simp only [noDigitHead, Bool.not_eq_true'] at hrest
      simp [splitDigits, hrest]
  | cons c t ih =>
    intro rest hds hrest
    have hc : isDigitCh c = true := hds c (by simp)
    have ht := ih (fun x hx => hds x (by simp [hx])) hrest
    simp [splitDigits, hc, ht]

theorem readNat_natChars (n : Nat) {rest : List Char} (hrest : noDigitHead rest = true) :
    readNat (natChars n ++ rest) = some (n, rest) := by
  obtain ⟨c, t, hn, hc⟩ := natChars_cons n
  rw [readNat, splitDigits_exact (natChars_all_digits n) hrest, hn]
  show some (digitsVal (c :: t), rest) = some (n, rest)
  rw [← hn, digitsVal_natChars]

theorem digit_char_cases {c : Char} (h : isDigitCh c = true) :
    c = '0' ∨ c = '1' ∨ c = '2' ∨ c = '3' ∨ c = '4'
      ∨ c = '5' ∨ c = '6' ∨ c = '7' ∨ c = '8' ∨ c = '9' := by
  simp only [isDigitCh, Bool.and_eq_true, decide_eq_true_eq] at h
  have hc : c = Char.ofNat c.toNat := (Char.ofNat_toNat c).symm
  rcases (by omega : c.toNat = 48 ∨ c.toNat = 49 ∨ c.toNat = 50 ∨ c.toNat = 51
      ∨ c.toNat = 52 ∨ c.toNat = 53 ∨ c.toNat = 54 ∨ c.toNat = 55
      ∨ c.toNat = 56 ∨ c.toNat = 57) with
    h1 | h1 | h1 | h1 | h1 | h1 | h1 | h1 | h1 | h1 <;>
    rw [hc, h1] <;> simp

theorem skipBlanks_not_blank {c : Char} {cs : List Char}
    (h : (c == ' ' || c == '\n' || c == '\t' || c == '\r') = false) :
    skipBlanks (c :: cs) = c :: cs := by
  rw [skipBlanks]
  simp [h]

theorem readVal_blank (fuel : Nat) (cs : List Char) :
    readVal fuel (' ' :: cs) = readVal fuel cs := by
  cases fuel with
  | zero => rfl
  | succ f => rfl

theorem readItems_blank (fuel : Nat) (cs : List Char) :
    readItems fuel (' ' :: cs) = readItems fuel cs := by
  cases fuel with
  | zero => rfl
  | succ f =>
    rw [readItems, readItems, readVal_blank]

theorem readFields_blank (fuel : Nat) (cs : List Char) :
    readFields fuel (' ' :: cs) = readFields fuel cs := by
  cases fuel with
  | zero => rfl
  | succ f => rfl

theorem readVal_minus (fuel : Nat) (t : List Char) :
    readVal (fuel + 1) ('-' :: t)
      = (match readNat t with
         | some (n, r) => some (.jint (-(n : Int)), r)
         | none => none) := rfl

theorem readVal_digit {c : Char} (hc : isDigitCh c = true) (fuel : Nat) (t : List Char) :
    readVal (fuel + 1) (c :: t)
      = (match readNat (c :: t) with
         | some (n, r) => some (.jint (n : Int), r)
         | none => none) := by
  rcases digit_char_cases hc with h | h | h | h | h | h | h | h | h | h <;> subst h <;> rfl

theorem digit_not_blank {c : Char} (hc : isDigitCh c = true) :
    (c == ' ' || c == '\n' || c == '\t' || c == '\r') = false := by
  rcases digit_char_cases hc with h | h | h | h | h | h | h | h | h | h <;> subst h <;> decide

theorem digit_ne_bracket {c : Char} (hc : isDigitCh c = true) : c ≠ ']' := by
  rcases digit_char_cases hc with h | h | h | h | h | h | h | h | h | h <;> subst h <;> decide

theorem readVal_intChars (fuel : Nat) (i : Int) {rest : List Char}
    (hrest : noDigitHead rest = true) :
    readVal (fuel + 1) (intChars i ++ rest) = some (.jint i, rest) := by
  by_cases hi : i < 0
  · have harg : intChars i ++ rest = '-' :: (natChars i.natAbs ++ rest) := by
      simp [intChars, hi]
    rw [harg, readVal_minus, readNat_natChars i.natAbs hrest]
    show some (JVal.jint (-(i.natAbs : Int)), rest) = some (.jint i, rest)
    rw [show -(i.natAbs : Int) = i from by omega]
  · obtain ⟨c, t, hn, hc⟩ := natChars_cons i.natAbs
    have harg : intChars i ++ rest = c :: (t ++ rest) := by
      simp [intChars, hi, hn]
    rw [harg, readVal_digit hc, show c :: (t ++ rest) = (c :: t) ++ rest from rfl, ← hn,
      readNat_natChars i.natAbs hrest]
    show some (JVal.jint (i.natAbs : Int), rest) = some (.jint i, rest)
    rw [show (i.natAbs : Int) = i from by omega]

/-! ## Inverting the serialiser: strings -/

theorem hexNibble_hexDigit {d : Nat} (h : d < 16) : hexNibble (hexDigit d) = some d := by
  match d, h with
  | 0, _ => decide
  | 1, _ => decide
  | 2, _ => decide
  | 3, _ => decide
  | 4, _ => decide
  | 5, _ => decide
  | 6, _ => decide
  | 7, _ => decide
  | 8, _ => decide
  | 9, _ => decide
  | 10, _ => decide
  | 11, _ => decide
  | 12, _ => decide
  | 13, _ => decide
  | 14, _ => decide
  | 15, _ => decide
  | d + 16, h => omega

theorem readStrBody_plain {c : Char} (h1 : c ≠ '"') (h2 : c ≠ '\\')
    (acc rest : List Char) :
    readStrBody acc (c :: rest) = readStrBody (c :: acc) rest := by
  rw [readStrBody.eq_def]
  simp only [if_neg h1, if_neg h2]

theorem readStrBody_unicode (acc : List Char) (a b c2 d : Char) (rest : List Char) :
    readStrBody acc ('\\' :: 'u' :: a :: b :: c2 :: d :: rest)
      = (match hexNibble a, hexNibble b, hexNibble c2, hexNibble d with
         | some va, some vb, some vc, some vd =>
           readStrBody (Char.ofNat (((va * 16 + vb) * 16 + vc) * 16 + vd) :: acc) rest
         | _, _, _, _ => none) := rfl

theorem readStrBody_esc (c : Char) (acc rest : List Char) :
    readStrBody acc (escChar c ++ rest) = readStrBody (c :: acc) rest := by
  rw [escChar]
  split_ifs with h1 h2 h3 h4 h5 h6 h7 h8
  · subst h1; rfl
  · subst h2; rfl
  · subst h3; rfl
  · subst h4; rfl
  · subst h5; rfl
  · subst h6; rfl
  · subst h7; rfl
  · simp only [List.cons_append, List.nil_append]
    rw [readStrBody_unicode, hexNibble_hexDigit (by omega), hexNibble_hexDigit (by omega)]
    show readStrBody
      (Char.ofNat (((0 * 16 + 0) * 16 + c.toNat / 16) * 16 + c.toNat % 16) :: acc) rest = _
    rw [show ((0 * 16 + 0) * 16 + c.toNat / 16) * 16 + c.toNat % 16 = c.toNat from by omega,
      Char.ofNat_toNat]
  · simp only [List.cons_append, List.nil_append]
    exact readStrBody_plain h1 h2 acc rest

theorem readStrBody_flat (l : List Char) :
    ∀ (acc rest : List Char),
      readStrBody acc (l.flatMap escChar ++ ('"' :: rest))
        = some (String.mk (acc.reverse ++ l), rest) := by
  induction l with
  | nil =>
    intro acc rest
    rw [List.flatMap_nil, List.nil_append, List.append_nil, readStrBody.eq_def]
    simp
  | cons c t ih =>
    intro acc rest
    rw [List.flatMap_cons, List.append_assoc, readStrBody_esc, ih]
    simp

theorem readStrBody_strChars (s : String) (rest : List Char) :
    readStrBody [] (s.toList.flatMap escChar ++ ('"' :: rest)) = some (s, rest) := by
  rw [readStrBody_flat]
  rfl

/-! ## Inverting the serialiser: values -/

theorem digit_ne_brace {c : Char} (hc : isDigitCh c = true) : c ≠ '}' := by
  rcases digit_char_cases hc with h | h | h | h | h | h | h | h | h | h <;> subst h <;> decide

theorem emitVal_head (v : JVal) :
    ∃ c t, emitVal v = c :: t
      ∧ (c == ' ' || c == '\n' || c == '\t' || c == '\r') = false
      ∧ c ≠ ']' ∧ c ≠ '}' := by
  cases v with
  | jnull => exact ⟨'n', ['u', 'l', 'l'], by simp [emitVal], by decide, by decide, by decide⟩
  | jbool b =>
    cases b with
    | true =>
      exact ⟨'t', ['r', 'u', 'e'], by simp [emitVal], by decide, by decide, by decide⟩
    | false =>
      exact ⟨'f', ['a', 'l', 's', 'e'], by simp [emitVal], by decide, by decide, by decide⟩
  | jstr s =>
    exact ⟨'"', s.toList.flatMap escChar ++ ['"'], by simp [emitVal, strChars],
      by decide, by decide, by decide⟩
  | jarr items =>
    exact ⟨'[', emitItems items ++ [']'], by simp [emitVal], by decide, by decide, by decide⟩
  | jobj fields =>
    exact ⟨'{', emitFields fields ++ ['}'], by simp [emitVal], by decide, by decide, by decide⟩
  | jint i =>
    by_cases hi : i < 0
    · refine ⟨'-', natChars i.natAbs, ?_, by decide, by decide, by decide⟩
      simp [emitVal, intChars, hi]
    · obtain ⟨c, t, hn, hc⟩ := natChars_cons i.natAbs
      refine ⟨c, t, ?_, digit_not_blank hc, digit_ne_bracket hc, digit_ne_brace hc⟩
      simp [emitVal, intChars, hi, hn]

theorem emitVal_length_pos (v : JVal) : 1 ≤ (emitVal v).length := by
  obtain ⟨c, t, h, -, -, -⟩ := emitVal_head v
  rw [h]
  simp

theorem skipBlanks_emitVal (v : JVal) (x : List Char) :
    skipBlanks (emitVal v ++ x) = emitVal v ++ x := by
  obtain ⟨c, t, h, hb, -, -⟩ := emitVal_head v
  rw [h, List.cons_append, skipBlanks_not_blank hb]

theorem emitItemsTail_noDigit (vs : List JVal) (rest : List Char) :
    noDigitHead (emitItemsTail vs ++ ']' :: rest) = true := by
  cases vs with
  | nil => simp [emitItemsTail, noDigitHead, isDigitCh]
  | cons v vs => simp [emitItemsTail, noDigitHead, isDigitCh]

theorem emitFieldsTail_noDigit (fs : JFields) (rest : List Char) :
    noDigitHead (emitFieldsTail fs ++ '}' :: rest) = true := by
  cases fs with
  | nil => simp [emitFieldsTail, noDigitHead, isDigitCh]
  | cons kv fs =>
    obtain ⟨k, v⟩ := kv
    simp [emitFieldsTail, noDigitHead, isDigitCh]

theorem readVal_quote (fuel : Nat) (t : List Char) :
    readVal (fuel + 1) ('"' :: t)
      = (match readStrBody [] t with
         | some (s, r) => some (.jstr s, r)
         | none => none) := rfl

theorem readVal_lbrack (fuel : Nat) (t : List Char) :
    readVal (fuel + 1) ('[' :: t)
      = (match skipBlanks t with
         | [] => none
         | c :: rest2 =>
           if c = ']' then some (.jarr [], rest2)
           else
             match readItems fuel (c :: rest2) with
             | some (items, rest3) => some (.jarr items, rest3)
             | none => none) := rfl

theorem readVal_lbrace (fuel : Nat) (t : List Char) :
    readVal (fuel + 1) ('{' :: t)
      = (match skipBlanks t with
         | [] => none
         | c :: rest2 =>
           if c = '}' then some (.jobj [], rest2)
           else
             match readFields fuel (c :: rest2) with
             | some (fields, rest3) => some (.jobj fields, rest3)
             | none => none) := rfl

theorem skipBlanks_comma (cs : List Char) : skipBlanks (',' :: cs) = ',' :: cs := rfl

theorem skipBlanks_rbrack (cs : List Char) : skipBlanks (']' :: cs) = ']' :: cs := rfl

theorem skipBlanks_rbrace (cs : List Char) : skipBlanks ('}' :: cs) = '}' :: cs := rfl

theorem skipBlanks_colon (cs : List Char) : skipBlanks (':' :: cs) = ':' :: cs := rfl

theorem skipBlanks_quote (cs : List Char) : skipBlanks ('"' :: cs) = '"' :: cs := rfl

mutual

theorem rt_readVal :
    ∀ (v : JVal) (fuel : Nat) (rest : List Char),
      (emitVal v).length < fuel → noDigitHead rest = true →
      readVal fuel (emitVal v ++ rest) = some (v, rest)
  | v, 0, rest, hf, _ => absurd hf (by omega)
  | .jnull, fuel + 1, rest, _, _ => by
    rw [show emitVal .jnull = ['n', 'u', 'l', 'l'] from by simp [emitVal]]
    rfl
  | .jbool true, fuel + 1, rest, _, _ => by
    rw [show emitVal (.jbool true) = ['t', 'r', 'u', 'e'] from by simp [emitVal]]
    rfl
  | .jbool false, fuel + 1, rest, _, _ => by
    rw [show emitVal (.jbool false) = ['f', 'a', 'l', 's', 'e'] from by simp [emitVal]]
    rfl
  | .jint i, fuel + 1, rest, _, hrest => by
    rw [show emitVal (.jint i) = intChars i from by simp [emitVal]]
    exact readVal_intChars fuel i hrest
  | .jstr s, fuel + 1, rest, _, _ => by
    rw [show emitVal (.jstr s) ++ rest
        = '"' :: (s.toList.flatMap escChar ++ ('"' :: rest)) from by
      simp [emitVal, strChars]]
    rw [readVal_quote, readStrBody_strChars]
  | .jarr [], fuel + 1, rest, _, _ => by
    rw [show emitVal (.jarr []) ++ rest = '[' :: (']' :: rest) from by
      simp [emitVal, emitItems]]
    rw [readVal_lbrack, skipBlanks_not_blank (by decide)]
    simp
  | .jarr (v0 :: vs), fuel + 1, rest, hf, _ => by
    obtain ⟨c, t, hc, hcb, hcr, _⟩ := emitVal_head v0
    have hshape : emitVal (.jarr (v0 :: vs)) ++ rest
        = '[' :: (c :: (t ++ (emitItemsTail vs ++ (']' :: rest)))) := by
      simp [emitVal, emitItems, hc]
    rw [hshape, readVal_lbrack, skipBlanks_not_blank hcb]
    simp only [if_neg hcr]
    have harg : c :: (t ++ (emitItemsTail vs ++ (']' :: rest)))
        = emitItems (v0 :: vs) ++ (']' :: rest) := by
      simp [emitItems, hc]
    rw [harg]
    have hlen : (emitItems (v0 :: vs)).length + 1 < fuel := by
      have he : emitVal (.jarr (v0 :: vs)) = '[' :: (emitItems (v0 :: vs) ++ [']']) := by
        simp [emitVal]
      rw [he] at hf
      simp only [List.length_cons, List.length_append, List.length_singleton] at hf
      omega
    rw [rt_readItems vs v0 fuel rest hlen]
  | .jobj [], fuel + 1, rest, _, _ => by
    rw [show emitVal (.jobj []) ++ rest = '{' :: ('}' :: rest) from by
      simp [emitVal, emitFields]]
    rw [readVal_lbrace, skipBlanks_not_blank (by decide)]
    simp
  | .jobj ((k0, w0) :: fs), fuel + 1, rest, hf, _ => by
    have hshape : emitVal (.jobj ((k0, w0) :: fs)) ++ rest
        = '{' :: ('"' :: ((k0.toList.flatMap escChar
            ++ ('"' :: (':' :: (' ' :: (emitVal w0
            ++ (emitFieldsTail fs ++ ('}' :: rest)))))))))  := by
      simp [emitVal, emitFields, strChars]
    rw [hshape, readVal_lbrace, skipBlanks_not_blank (by decide)]
    simp only [if_neg (by decide : ¬('"' : Char) = '}')]
    have hlen : (emitFields ((k0, w0) :: fs)).length + 1 < fuel := by
      have he : emitVal (.jobj ((k0, w0) :: fs))
          = '{' :: (emitFields ((k0, w0) :: fs) ++ ['}']) := by
        simp [emitVal]
      rw [he] at hf
      simp only [List.length_cons, List.length_append, List.length_singleton] at hf
      omega
    have harg : ('"' :: ((k0.toList.flatMap escChar
            ++ ('"' :: (':' :: (' ' :: (emitVal w0
            ++ (emitFieldsTail fs ++ ('}' :: rest)))))))))
        = emitFields ((k0, w0) :: fs) ++ ('}' :: rest) := by
      simp [emitFields, strChars]
    rw [harg, rt_readFields fs k0 w0 fuel rest hlen]

theorem rt_readItems :
    ∀ (vs : List JVal) (v0 : JVal) (fuel : Nat) (rest : List Char),
      (emitItems (v0 :: vs)).length + 1 < fuel →
      readItems fuel (emitItems (v0 :: vs) ++ (']' :: rest)) = some (v0 :: vs, rest)
  | vs, v0, 0, rest, hf => absurd hf (by omega)
  | [], v0, fuel + 1, rest, hf => by
    rw [readItems]
    have harg : emitItems [v0] ++ (']' :: rest) = emitVal v0 ++ (']' :: rest) := by
      simp [emitItems, emitItemsTail]
    have hlen : (emitVal v0).length < fuel := by
      have he : emitItems [v0] = emitVal v0 := by
        simp [emitItems, emitItemsTail]
      rw [he] at hf
      omega
    rw [harg, rt_readVal v0 fuel (']' :: rest) hlen (by simp [noDigitHead, isDigitCh])]
    simp only [skipBlanks_rbrack]
  | v1 :: vs, v0, fuel + 1, rest, hf => by
    rw [readItems]
    have harg : emitItems (v0 :: v1 :: vs) ++ (']' :: rest)
        = emitVal v0 ++ (',' :: (' ' :: (emitItems (v1 :: vs) ++ (']' :: rest)))) := by
      simp [emitItems, emitItemsTail]
    have hlens : (emitItems (v0 :: v1 :: vs)).length
        = (emitVal v0).length + 2 + (emitItems (v1 :: vs)).length := by
      simp [emitItems, emitItemsTail]
      omega
    have hlen0 : (emitVal v0).length < fuel := by omega
    have hlen1 : (emitItems (v1 :: vs)).length + 1 < fuel := by omega
    rw [harg]
    simp only [rt_readVal v0 fuel (',' :: (' ' :: (emitItems (v1 :: vs) ++ (']' :: rest))))
        hlen0 (by simp [noDigitHead, isDigitCh]),
      skipBlanks_comma, readItems_blank, rt_readItems vs v1 fuel rest hlen1]

theorem rt_readFields :
    ∀ (fs : JFields) (k0 : String) (w0 : JVal) (fuel : Nat) (rest : List Char),
      (emitFields ((k0, w0) :: fs)).length + 1 < fuel →
      readFields fuel (emitFields ((k0, w0) :: fs) ++ ('}' :: rest))
        = some ((k0, w0) :: fs, rest)
  | fs, k0, w0, 0, rest, hf => absurd hf (by omega)
  | [], k0, w0, fuel + 1, rest, hf => by
    rw [readFields]
    have hshape : emitFields [(k0, w0)] ++ ('}' :: rest)
        = '"' :: (k0.toList.flatMap escChar
            ++ ('"' :: (':' :: (' ' :: (emitVal w0 ++ ('}' :: rest)))))) := by
      simp [emitFields, emitFieldsTail, strChars]
    have hlen : (emitVal w0).length < fuel := by
      have he : (emitFields [(k0, w0)]).length
          = (strChars k0).length + 2 + (emitVal w0).length := by
        simp only [emitFields, emitFieldsTail, List.append_nil, List.length_append,
          List.length_cons]
        omega
      omega
    rw [hshape, skipBlanks_quote]
    simp only [readStrBody_strChars, skipBlanks_colon, readVal_blank,
      rt_readVal w0 fuel ('}' :: rest) hlen (by simp [noDigitHead, isDigitCh]),
      skipBlanks_rbrace]
  | (k1, w1) :: fs, k0, w0, fuel + 1, rest, hf => by
    rw [readFields]
    have hshape : emitFields ((k0, w0) :: (k1, w1) :: fs) ++ ('}' :: rest)
        = '"' :: (k0.toList.flatMap escChar
            ++ ('"' :: (':' :: (' ' :: (emitVal w0
            ++ (',' :: (' ' :: (emitFields ((k1, w1) :: fs) ++ ('}' :: rest))))))))) := by
      simp [emitFields, emitFieldsTail, strChars]
    have hlens : (emitFields ((k0, w0) :: (k1, w1) :: fs)).length
        = (strChars k0).length + 2 + (emitVal w0).length
          + (2 + (emitFields ((k1, w1) :: fs)).length) := by
      simp only [emitFields, emitFieldsTail, List.length_append, List.length_cons]
      omega
    have hlen0 : (emitVal w0).length < fuel := by omega
    have hlen1 : (emitFields ((k1, w1) :: fs)).length + 1 < fuel := by omega
    rw [hshape, skipBlanks_quote]
    simp only [readStrBody_strChars, skipBlanks_colon, readVal_blank,
      rt_readVal w0 fuel
        (',' :: (' ' :: (emitFields ((k1, w1) :: fs) ++ ('}' :: rest))))
        hlen0 (by simp [noDigitHead, isDigitCh]),
      skipBlanks_comma, readFields_blank, rt_readFields fs k1 w1 fuel rest hlen1]

end

/-- The codec round-trip: parsing a serialised state recovers it exactly. -/
theorem loads_dumps (st : JVal) : loads (dumps st) = some st := by
  have h := rt_readVal st ((emitVal st).length + 1) [] (by omega) rfl
  rw [List.append_nil] at h
  show (match readVal ((emitVal st).length + 1) (emitVal st) with
        | some (v, rest) => if (skipBlanks rest).isEmpty then some v else none
        | none => none) = some st
  rw [h]
  simp [skipBlanks]

/-- Claim C8: saving the in-memory state to the state file and loading it in a
freshly constructed `StateManager` pointed at the same file reproduces the
state exactly — in particular every site's record and all its counters. -/
theorem C8_state_save_load_roundtrip :
    ∀ (st : JVal) (site : String),
      state_manager_init (state_manager_save st) = st
      ∧ get_site_state (state_manager_init (state_manager_save st)) site
          = get_site_state st site := by
  intro st site
  have h : state_manager_init (state_manager_save st) = st := by
    simp only [state_manager_save, state_manager_init, loads_dumps]
  exact ⟨h, by rw [h]⟩

/-- Claim C9: constructing a `StateManager` over a file whose content fails to
parse (or over an unreadable or missing file) yields the empty state and does
not raise; every subsequent operation on it behaves exactly as on a fresh
manager with no history. -/
theorem C9_corrupt_state_file :
    ∀ (content : String), loads content = none →
      state_manager_init (.readable content) = JVal.jobj []
      ∧ state_manager_init .unreadable = JVal.jobj []
      ∧ state_manager_init .absent = JVal.jobj []
      ∧ (∀ site, get_site_state (state_manager_init (.readable content)) site = some none)
      ∧ (∀ site max2, is_healthy (state_manager_init (.readable content)) site max2
          = some true)
      ∧ (∀ site success err tf dv now,
          record_login_attempt (state_manager_init (.readable content))
              site success err tf dv now
            = record_login_attempt (state_manager_init .absent) site success err tf dv now) := by
  intro content h
  have h0 : state_manager_init (.readable content) = .jobj [] := by
    simp only [state_manager_init, h]
  refine ⟨h0, rfl, rfl, ?_, ?_, ?_⟩
  · intro site
    rw [h0]
    rfl
  · intro site max2
    rw [h0]
    rfl
  · intro site success err tf dv now
    rw [h0]
    rfl

/-- Witness for C9 at a concrete corrupt file content. -/
theorem C9_corrupt_state_file_witness :
    state_manager_init (.readable "not json") = JVal.jobj []
    ∧ is_healthy (state_manager_init (.readable "not json")) "site" 3 = some true :=
  ⟨(C9_corrupt_state_file "not json" rfl).1,
   (C9_corrupt_state_file "not json" rfl).2.2.2.2.1 "site" 3⟩
